import Mathlib

/-! Shallow embedding of the yasnoch night-sky forecast bot (src/app.py and
src/providers.py).  Times and epoch timestamps are modelled as integers at
second granularity; percentages, probabilities and means as rationals.  The
Python float NaN sentinel for a missing cloud value is modelled as
Option.none, and a missing precip_prob key is likewise Option.none.  External
libraries (astral, httpx, telegram, apscheduler) enter only as oracle inputs:
sunset/sunrise and moonrise/moonset values are parameters of the embedding,
and an exception raised by code in src is modelled as Except.error. -/

namespace Yasnoch

/-- One provider sample for one hour (the HourPoint dict of providers.py):
cloud is none when the key is missing or the float is NaN, precip is none
when the precip_prob key is missing. -/
structure HourPoint where
  ts : Int
  cloud : Option ℚ
  precip : Option ℚ
deriving DecidableEq

/-- Accumulator cell of fetch_all_providers: results[ts], the two sample
lists for one timestamp. -/
structure Cell where
  cloud : List ℚ
  precip : List ℚ
deriving DecidableEq

/-- Fused per-hour record (averaged[ts] in app.py). -/
structure Consensus where
  cloud : ℚ
  precip : ℚ
deriving DecidableEq

/-- Runtime configuration globals of app.py that the commands mutate. -/
structure Config where
  cloudThreshold : ℚ
  precipThreshold : ℚ
  minWindowHours : ℚ
  clearNightThreshold : ℚ
  useMoonFilter : Bool
  moonMaxIllum : ℚ
  notifyHour : Int
  notifyMinute : Int
  showSources : Bool
deriving DecidableEq

/-- Append one point's samples to a cell: the two list appends inside the
batch loop of fetch_all_providers (NaN cloud is skipped, a present
precip_prob is always appended). -/
def updCell (c : Cell) (p : HourPoint) : Cell :=
  let c1 := match p.cloud with
    | some v => { c with cloud := c.cloud ++ [v] }
    | none => c
  match p.precip with
  | some v => { c1 with precip := c1.precip ++ [v] }
  | none => c1

/-- results.setdefault(ts, empty cell) followed by the appends, on an
association list keyed by timestamp (a fresh key is appended at the end,
matching dict insertion order). -/
def insertPoint : List (Int × Cell) → HourPoint → List (Int × Cell)
  | [], p => [(p.ts, updCell ⟨[], []⟩ p)]
  | (t, c) :: rest, p =>
      if t = p.ts then (t, updCell c p) :: rest else (t, c) :: insertPoint rest p

/-- Association lookup of a results cell (results[ts]). -/
def lookupCell : List (Int × Cell) → Int → Option Cell
  | [], _ => none
  | (t, c) :: rest, ts => if t = ts then some c else lookupCell rest ts

/-- contrib[name] += 1 on an association list (the name is always present,
contrib being initialised from the provider names). -/
def bump : List (String × Nat) → String → List (String × Nat)
  | [], _ => []
  | (n, k) :: rest, m => if n = m then (n, k + 1) :: rest else (n, k) :: bump rest m

/-- One iteration of the inner point loop of fetch_all_providers: insert the
samples and count a cloud contribution for the provider when the cloud value
is not NaN. -/
def processPoint (st : List (Int × Cell) × List (String × Nat)) (name : String)
    (p : HourPoint) : List (Int × Cell) × List (String × Nat) :=
  (insertPoint st.1 p, if p.cloud.isSome then bump st.2 name else st.2)

/-- One iteration of the outer loop over zip(names, batches): a batch that is
an Exception is skipped entirely. -/
def processBatch (st : List (Int × Cell) × List (String × Nat))
    (nb : String × Except Unit (List HourPoint)) :
    List (Int × Cell) × List (String × Nat) :=
  match nb.2 with
  | .error _ => st
  | .ok pts => pts.foldl (fun s p => processPoint s nb.1 p) st

/-- Mean with a default: sum(l)/len(l) if l else dflt. -/
def avgOr (dflt : ℚ) (l : List ℚ) : ℚ :=
  if l = [] then dflt else l.sum / (l.length : ℚ)

/-- Per-hour fusion of one cell: cloud defaults to 100.0, precip to 0.0. -/
def fuseCell (c : Cell) : Consensus :=
  ⟨avgOr 100 c.cloud, avgOr 0 c.precip⟩

/-- Ordering of averaged entries by timestamp, as used by
dict(sorted(averaged.items())). -/
def keyLE (a b : Int × Consensus) : Prop := a.1 ≤ b.1

instance : DecidableRel keyLE := fun a b => inferInstanceAs (Decidable (a.1 ≤ b.1))

instance : IsTotal (Int × Consensus) keyLE := ⟨fun a b => Int.le_total a.1 b.1⟩

instance : IsTrans (Int × Consensus) keyLE := ⟨fun _ _ _ h1 h2 => le_trans h1 h2⟩

/-- Embedding of fetch_all_providers after the asyncio.gather settled: the
input pairs each provider name with either its sample batch or the exception
it raised.  Fan-in, per-hour fusion with defaults, drop of hours with no
samples of either kind, and the ascending sort of the final mapping. -/
def fetch_all_providers (bs : List (String × Except Unit (List HourPoint))) :
    List (Int × Consensus) × List (String × Nat) :=
  let st := bs.foldl processBatch ([], bs.map (fun nb => (nb.1, 0)))
  let averaged := (st.1.filter fun tc => !(tc.2.cloud.isEmpty && tc.2.precip.isEmpty)).map
    (fun tc => (tc.1, fuseCell tc.2))
  (List.insertionSort keyLE averaged, st.2)

/-- Points of all successful batches in processing order (used to state what
fetch_all_providers fuses). -/
def allPoints (bs : List (String × Except Unit (List HourPoint))) : List HourPoint :=
  bs.foldr (fun nb acc => (match nb.2 with | .ok pts => pts | .error _ => []) ++ acc) []

/-- Non-NaN cloud samples recorded for hour ts, in processing order. -/
def cloudSamples (pts : List HourPoint) (ts : Int) : List ℚ :=
  (pts.filter fun p => p.ts = ts).filterMap fun p => p.cloud

/-- Reported precip samples recorded for hour ts, in processing order. -/
def precipSamples (pts : List HourPoint) (ts : Int) : List ℚ :=
  (pts.filter fun p => p.ts = ts).filterMap fun p => p.precip

/-- Usable-hour timestamps: the allowed_ts comprehension of
summarize_windows. -/
def allowedTs (cfg : Config) (averaged : List (Int × Consensus)) : List Int :=
  (averaged.filter fun tv =>
    decide (tv.2.cloud ≤ cfg.cloudThreshold ∧ tv.2.precip ≤ cfg.precipThreshold)).map Prod.fst

/-- Main merging loop of summarize_windows, with loop state (start, prev):
a step of exactly 3600 extends the current run, anything else closes the
current window at prev + 3600 and starts a new run. -/
def mergeLoop (start prev : Int) : List Int → List (Int × Int)
  | [] => [(start, prev + 3600)]
  | ts :: rest =>
      if ts - prev = 3600 then mergeLoop start ts rest
      else (start, prev + 3600) :: mergeLoop ts ts rest

/-- Windows produced from the sorted allowed timestamps before the minimum
length filter. -/
def rawWindows : List Int → List (Int × Int)
  | [] => []
  | t :: rest => mergeLoop t t rest

/-- Embedding of summarize_windows: empty when no hour is usable, otherwise
the merged runs with windows shorter than MIN_WINDOW_HOURS discarded. -/
def summarize_windows (cfg : Config) (averaged : List (Int × Consensus)) :
    List (Int × Int) :=
  let allowed := allowedTs cfg averaged
  if allowed = [] then []
  else (rawWindows (List.insertionSort (· ≤ ·) allowed)).filter
    fun ab => decide (((ab.2 - ab.1 : Int) : ℚ) / 3600 ≥ cfg.minWindowHours)

/-- Hour-grid points of a half-open window: a, a + 3600, ..., up to b
exclusive; used to state which usable hours a merged window accounts for. -/
def gridPts (a b : Int) : List Int :=
  (List.range ((b - a) / 3600).toNat).map fun k : Nat => a + 3600 * (k : Int)

/-- Association lookup of a consensus record (averaged[ts]). -/
def lookupC : List (Int × Consensus) → Int → Option Consensus
  | [], _ => none
  | (t, r) :: rest, ts => if t = ts then some r else lookupC rest ts

/-- Hours of the consensus mapping inside the half-open dusk..dawn range
(the hrs comprehension of compute_clear_fraction). -/
def clearHrs (averaged : List (Int × Consensus)) (dusk dawn : Int) : List Int :=
  (averaged.map Prod.fst).filter fun ts => decide (dusk ≤ ts ∧ ts < dawn)

/-- Embedding of compute_clear_fraction. -/
def compute_clear_fraction (cfg : Config) (averaged : List (Int × Consensus))
    (dusk dawn : Int) : ℚ :=
  if averaged = [] then 0
  else
    let hrs := clearHrs averaged dusk dawn
    if hrs = [] then 0
    else
      let good := hrs.filter fun ts =>
        match lookupC averaged ts with
        | some r => decide (r.cloud ≤ cfg.cloudThreshold ∧ r.precip ≤ cfg.precipThreshold)
        | none => false
      100 * (good.length : ℚ) / (hrs.length : ℚ)

/-- Embedding of night_window over the astral sun oracle: the oracle value is
(sunset of the date, sunrise of the next date) or the exception astral
raised, which night_window does not catch.  90 minutes is 5400 seconds. -/
def night_window (solar : Except Unit (Int × Int)) : Except Unit (Int × Int) :=
  match solar with
  | .error e => .error e
  | .ok (sunset, sunrise) =>
      let duskAstro := sunset + 5400
      let dawnAstro := sunrise - 5400
      if dawnAstro ≤ duskAstro then .ok (sunset, sunrise) else .ok (duskAstro, dawnAstro)

/-- Python value that is either a timezone-aware datetime or a bare date:
moon_info appends bare dates (date_local and date_local + 1 day) as
end-of-day interval endpoints.  A datetime carries its epoch second, a date
its ordinal day number. -/
inductive TV where
  | dtm (t : Int)
  | dte (d : Int)
deriving DecidableEq

/-- Oracle inputs of moon_info for one date: the phase fraction
(1 - cos(2 pi age / 29.530588))/2 as a rational, the age, and the four
moonrise/moonset lookups where none models a lookup that raised and was
caught by the local safe helper. -/
structure MoonOracle where
  dateLocal : Int
  frac : ℚ
  age : ℚ
  rise0 : Option Int
  set0 : Option Int
  rise1 : Option Int
  set1 : Option Int
deriving DecidableEq

/-- Interval construction of moon_info: the if/elif chain over the four
rise/set lookups. -/
def moonIntervals (mo : MoonOracle) : List (TV × TV) :=
  match mo.rise0, mo.set0 with
  | some r0, some s0 =>
      if r0 < s0 then [(.dtm r0, .dtm s0)]
      else
        (.dtm r0, .dte (mo.dateLocal + 1)) ::
          (match mo.set1 with
           | some s1 => [(.dte (mo.dateLocal + 1), .dtm s1)]
           | none => [])
  | some r0, none => [(.dtm r0, .dte (mo.dateLocal + 1))]
  | none, some s0 => [(.dte mo.dateLocal, .dtm s0)]
  | none, none =>
      match mo.rise1, mo.set1 with
      | some r1, some s1 => if r1 < s1 then [(.dte (mo.dateLocal + 1), .dtm s1)] else []
      | _, _ => []

/-- Embedding of moon_info: clamped illumination percentage, age, and the
horizon intervals. -/
def moon_info (mo : MoonOracle) : ℚ × ℚ × List (TV × TV) :=
  (max 0 (min 1 mo.frac) * 100, mo.age, moonIntervals mo)

/-- Clip one horizon interval to the night window: s = max(a, dusk),
e = min(b, dawn), kept when s < e.  Comparing a bare date with a datetime
raises TypeError in Python, modelled as Except.error. -/
def clip1 (dusk dawn : Int) : TV × TV → Except Unit (Option (Int × Int))
  | (.dtm a, .dtm b) =>
      let s := max a dusk
      let e := min b dawn
      .ok (if s < e then some (s, e) else none)
  | _ => .error ()

/-- Overlap loop of classify_moon_vs_night over the horizon intervals. -/
def overlapsOf (dusk dawn : Int) : List (TV × TV) → Except Unit (List (Int × Int))
  | [] => .ok []
  | i :: rest =>
      match clip1 dusk dawn i with
      | .error e => .error e
      | .ok o =>
          match overlapsOf dusk dawn rest with
          | .error e => .error e
          | .ok os => .ok (match o with | some p => p :: os | none => os)

/-- Status strings of classify_moon_vs_night, abstracted to an enum. -/
inductive MoonStatus where
  | outsideNight
  | aboveHorizon
  | noData
deriving DecidableEq

/-- Embedding of classify_moon_vs_night: illumination, age, intervals,
overlaps clipped to the night window, and the derived status. -/
def classify_moon_vs_night (mo : MoonOracle) (dusk dawn : Int) :
    Except Unit (ℚ × ℚ × List (TV × TV) × List (Int × Int) × MoonStatus) :=
  match overlapsOf dusk dawn (moon_info mo).2.2 with
  | .error e => .error e
  | .ok overlaps =>
      let status :=
        if (moon_info mo).2.2 ≠ [] ∧ overlaps = [] then MoonStatus.outsideNight
        else if overlaps ≠ [] then MoonStatus.aboveHorizon
        else MoonStatus.noData
      .ok ((moon_info mo).1, (moon_info mo).2.1, (moon_info mo).2.2, overlaps, status)

/-- Embedding of filter_by_moon: the early identity returns, the
classification call (whose exception propagates), and the removal of hours
inside any overlap block. -/
def filter_by_moon (cfg : Config) (mo : MoonOracle) (averaged : List (Int × Consensus))
    (dusk dawn : Int) : Except Unit (List (Int × Consensus)) :=
  if ¬cfg.useMoonFilter ∨ averaged = [] then .ok averaged
  else
    match classify_moon_vs_night mo dusk dawn with
    | .error e => .error e
    | .ok (illum, _, _, overlaps, _) =>
        if illum ≤ cfg.moonMaxIllum ∨ overlaps = [] then .ok averaged
        else .ok (averaged.filter fun tv =>
          !(overlaps.any fun ab => decide (ab.1 ≤ tv.1 ∧ tv.1 < ab.2)))

/-- Header branch of make_summary_line, abstracted from the literal text. -/
inductive Header where
  | clearNight (pct : ℚ)
  | gaps (a b : Int)
  | overcast
deriving DecidableEq

/-- Body branch of fmt_report, abstracted from the literal text; a listing
bullet carries its window bounds and the mean cloud shown for it. -/
inductive Body where
  | noData
  | noWindows
  | listing (bullets : List (Int × Int × ℚ))
deriving DecidableEq

/-- Data content of the report string produced by fmt_report. -/
structure Report where
  header : Header
  moonIllum : ℚ
  moonStatus : MoonStatus
  body : Body
  sources : Option (List (String × Nat))
deriving DecidableEq

/-- Python max(windows, key=duration), which keeps the first maximum. -/
def pyMaxBy (f : Int × Int → Int) (x : Int × Int) (xs : List (Int × Int)) : Int × Int :=
  xs.foldl (fun best y => if f y > f best then y else best) x

/-- Embedding of make_summary_line: which header branch fires. -/
def make_summary_line (cfg : Config) (clearPct : ℚ) (windows : List (Int × Int)) :
    Header :=
  if cfg.clearNightThreshold ≤ clearPct ∧ windows ≠ [] then .clearNight clearPct
  else
    match windows with
    | [] => .overcast
    | w :: ws => .gaps (pyMaxBy (fun v => v.2 - v.1) w ws).1 (pyMaxBy (fun v => v.2 - v.1) w ws).2

/-- Mean cloud of the consensus hours inside one window: the per-bullet
comprehension of fmt_report, which walks the mapping keys in sorted order. -/
def bulletAvg (averaged : List (Int × Consensus)) (a b : Int) : ℚ :=
  let hours := ((List.insertionSort keyLE averaged).filter fun tv =>
    decide (a ≤ tv.1 ∧ tv.1 < b)).map fun tv => tv.2.cloud
  if hours = [] then 0 else hours.sum / (hours.length : ℚ)

/-- Embedding of fmt_report.  String formatting is abstracted to the header
constructor, the body constructor with its computed numbers and the footer
data; classify_moon_vs_night is evaluated before the body is chosen and its
exception propagates. -/
def fmt_report (cfg : Config) (mo : MoonOracle) (dusk dawn : Int)
    (averaged : List (Int × Consensus)) (windows : List (Int × Int))
    (contrib : List (String × Nat)) : Except Unit Report :=
  let clearPct := compute_clear_fraction cfg averaged dusk dawn
  let header := make_summary_line cfg clearPct windows
  match classify_moon_vs_night mo dusk dawn with
  | .error e => .error e
  | .ok (illum, _, _, _, status) =>
      let body :=
        if averaged = [] then Body.noData
        else if windows = [] then Body.noWindows
        else Body.listing (windows.map fun ab => (ab.1, ab.2, bulletAvg averaged ab.1 ab.2))
      let sources :=
        if cfg.showSources then some (contrib.filter fun nv => decide (0 < nv.2)) else none
      .ok ⟨header, illum, status, body, sources⟩

/-- Oracle environment for one build_message run: the solar oracle, the moon
oracle and the settled provider batches. -/
structure Env where
  solar : Except Unit (Int × Int)
  mo : MoonOracle
  batches : List (String × Except Unit (List HourPoint))
  cfg : Config

/-- Embedding of build_message: the full report pipeline for one date. -/
def build_message (env : Env) : Except Unit Report :=
  match night_window env.solar with
  | .error e => .error e
  | .ok (dusk, dawn) =>
      let fetched := fetch_all_providers env.batches
      match filter_by_moon env.cfg env.mo fetched.1 dusk dawn with
      | .error e => .error e
      | .ok averaged2 =>
          fmt_report env.cfg env.mo dusk dawn averaged2
            (summarize_windows env.cfg averaged2) fetched.2

/-- Floor a timestamp to the hour: providers._round_hour applied to a UTC
datetime, at epoch-second granularity. -/
def round_hour (t : Int) : Int := 3600 * (Int.fdiv t 3600)

/-- Embedding of OpenMeteoProvider.fetch_hours after a successful response:
raw rows are (unix time, cloudcover, precipitation_probability) with missing
values as none; rows inside the inclusive rounded bound become HourPoints,
with a missing cloud kept as NaN (none) and a missing precip as 0.0. -/
def openMeteo_fetch_hours (raw : List (Int × Option ℚ × Option ℚ)) (start stop : Int) :
    List HourPoint :=
  let startTs := round_hour start
  let endTs := round_hour stop
  (raw.filter fun r => decide (startTs ≤ r.1 ∧ r.1 ≤ endTs)).map
    fun r => ⟨r.1, r.2.1, some (r.2.2.getD 0)⟩

/-- Kind of reply_text the command handlers send, abstracted from the text. -/
inductive Reply where
  | usage
  | confirm
deriving DecidableEq

/-- context.args[i] with the numeric parse folded in: .error models both a
missing argument (IndexError) and a failed int()/float() parse (ValueError),
which the handlers catch identically. -/
def getArg {α : Type} (args : List (Except Unit α)) (i : Nat) : Except Unit α :=
  match args.get? i with
  | some r => r
  | none => .error ()

/-- Embedding of the setnotify handler; schedFails models an exception from
the scheduler re-registration, which the source performs after assigning the
globals and whose failure also lands in the usage branch. -/
def setnotify (cfg : Config) (args : List (Except Unit Int)) (schedFails : Bool) :
    Config × Reply :=
  match getArg args 0, getArg args 1 with
  | .ok h, .ok m =>
      if 0 ≤ h ∧ h < 24 ∧ 0 ≤ m ∧ m < 60 then
        let cfg2 := { cfg with notifyHour := h, notifyMinute := m }
        if schedFails then (cfg2, .usage) else (cfg2, .confirm)
      else (cfg, .usage)
  | _, _ => (cfg, .usage)

/-- Embedding of the setthresholds handler. -/
def setthresholds (cfg : Config) (args : List (Except Unit ℚ)) : Config × Reply :=
  match getArg args 0, getArg args 1 with
  | .ok c, .ok p => ({ cfg with cloudThreshold := c, precipThreshold := p }, .confirm)
  | _, _ => (cfg, .usage)

/-- Embedding of the setclear handler. -/
def setclear (cfg : Config) (args : List (Except Unit ℚ)) : Config × Reply :=
  match getArg args 0 with
  | .ok v => ({ cfg with clearNightThreshold := v }, .confirm)
  | _ => (cfg, .usage)

/-- Embedding of the moonfilter handler: any parsed integer is accepted and
compared with 1. -/
def moonfilter (cfg : Config) (args : List (Except Unit Int)) : Config × Reply :=
  match getArg args 0 with
  | .ok v => ({ cfg with useMoonFilter := v == 1 }, .confirm)
  | _ => (cfg, .usage)

/-- Concrete configuration used to exercise the report pipeline end to end
(the environment-variable defaults of app.py). -/
def cfgC8 : Config := ⟨35, 20, 1, 60, false, 40, 15, 0, false⟩

/-- Concrete moon oracle with no rise/set data. -/
def moC8 : MoonOracle := ⟨0, 0, 7, none, none, none, none⟩

/-- Concrete settled batches: one provider returning two clear hours. -/
def bsC8 : List (String × Except Unit (List HourPoint)) :=
  [("Open-Meteo", Except.ok [⟨7200, some 10, some 5⟩, ⟨10800, some 10, some 5⟩])]

/-- Concrete environment for one report build. -/
def envC8 : Env := ⟨Except.ok (0, 100000), moC8, bsC8, cfgC8⟩

/-- Consensus mapping fetched from bsC8. -/
def avC8 : List (Int × Consensus) := [(7200, ⟨10, 5⟩), (10800, ⟨10, 5⟩)]

/-- Report produced by build_message on envC8. -/
def rC8 : Report :=
  ⟨make_summary_line cfgC8 (compute_clear_fraction cfgC8 avC8 5400 94600) [(7200, 14400)],
   max 0 (min 1 0) * 100, MoonStatus.noData,
   Body.listing [(7200, 14400, bulletAvg avC8 7200 14400)], none⟩

/-- Whether a settled batch is a success (not an exception). -/
def exceptOk : Except Unit (List HourPoint) → Bool
  | .ok _ => true
  | .error _ => false

/-- Association lookup of a contribution count (contrib[name]). -/
def lookupN : List (String × Nat) → String → Option Nat
  | [], _ => none
  | (n, k) :: rest, m => if n = m then some k else lookupN rest m

/-! Lemmas about the fan-in fold of fetch_all_providers. -/

theorem lookupCell_insertPoint (acc : List (Int × Cell)) (p : HourPoint) (ts : Int) :
    lookupCell (insertPoint acc p) ts =
      if p.ts = ts then some (updCell ((lookupCell acc p.ts).getD ⟨[], []⟩) p)
      else lookupCell acc ts := by
  induction acc with
  | nil =>
      by_cases h : p.ts = ts <;> simp [insertPoint, lookupCell, h]
  | cons tc rest ih =>
      obtain ⟨t, c⟩ := tc
      by_cases ht : t = p.ts
      · by_cases h : p.ts = ts <;> simp [insertPoint, lookupCell, ht, h]
      · by_cases h : p.ts = ts
        · have hne : ¬t = ts := fun he => ht (he.trans h.symm)
          simp [insertPoint, lookupCell, ht, h, hne, ih]
        · have h3 : ¬ts = p.ts := fun he => h he.symm
          by_cases h2 : t = ts <;> simp [insertPoint, lookupCell, ht, h, h2, h3, ih]

theorem foldl_insertPoint_lookup (pts : List HourPoint) (acc : List (Int × Cell))
    (ts : Int) :
    lookupCell (pts.foldl insertPoint acc) ts =
      match lookupCell acc ts with
      | some c => some ((pts.filter fun p => p.ts = ts).foldl updCell c)
      | none =>
          if pts.any (fun p => p.ts = ts) then
            some ((pts.filter fun p => p.ts = ts).foldl updCell ⟨[], []⟩)
          else none := by
  induction pts generalizing acc with
  | nil =>
      cases h : lookupCell acc ts <;> simp [h]
  | cons p rest ih =>
      rw [List.foldl_cons, ih, lookupCell_insertPoint]
      by_cases hp : p.ts = ts
      · cases h : lookupCell acc ts with
        | some c => simp [hp, h, List.filter_cons, List.any_cons]
        | none =>
            have hne : lookupCell acc p.ts = none := by rw [hp, h]
            simp [hp, h, hne, List.filter_cons, List.any_cons]
      · cases h : lookupCell acc ts with
        | some c => simp [hp, h, List.filter_cons, List.any_cons]
        | none => simp [hp, h, List.filter_cons, List.any_cons]

theorem updCell_eq (c : Cell) (p : HourPoint) :
    updCell c p = ⟨c.cloud ++ p.cloud.toList, c.precip ++ p.precip.toList⟩ := by
  cases hc : p.cloud <;> cases hp : p.precip <;> simp [updCell, hc, hp]

theorem foldl_updCell_eq (l : List HourPoint) (c : Cell) :
    l.foldl updCell c =
      ⟨c.cloud ++ l.filterMap (fun p => p.cloud), c.precip ++ l.filterMap (fun p => p.precip)⟩ := by
  induction l generalizing c with
  | nil => simp
  | cons p rest ih =>
      rw [List.foldl_cons, ih, updCell_eq]
      cases hc : p.cloud <;> cases hp : p.precip <;> simp [List.filterMap_cons, hc, hp]

theorem fst_mem_insertPoint {acc : List (Int × Cell)} {p : HourPoint} {tc : Int × Cell}
    (h : tc ∈ insertPoint acc p) : tc.1 = p.ts ∨ tc.1 ∈ acc.map Prod.fst := by
  induction acc with
  | nil =>
      simp only [insertPoint, List.mem_singleton] at h
      exact Or.inl (by rw [h])
  | cons hd rest ih =>
      obtain ⟨t, c⟩ := hd
      by_cases ht : t = p.ts
      · simp only [insertPoint, if_pos ht] at h
        rcases List.mem_cons.mp h with he | hm
        · exact Or.inl (by rw [he, ht])
        · exact Or.inr (List.mem_cons_of_mem _ (List.mem_map_of_mem Prod.fst hm))
      · simp only [insertPoint, if_neg ht] at h
        rcases List.mem_cons.mp h with he | hm
        · exact Or.inr (by simp [he])
        · rcases ih hm with h1 | h1
          · exact Or.inl h1
          · exact Or.inr (by simpa using Or.inr (List.mem_map.mp h1))

theorem mem_keys_insertPoint {acc : List (Int × Cell)} {p : HourPoint} {x : Int}
    (hx : x ∈ (insertPoint acc p).map Prod.fst) :
    x = p.ts ∨ x ∈ acc.map Prod.fst := by
  obtain ⟨tc, htc, hfst⟩ := List.mem_map.mp hx
  rcases fst_mem_insertPoint htc with h | h
  · exact Or.inl (hfst ▸ h)
  · exact Or.inr (hfst ▸ h)

theorem nodup_keys_insertPoint {acc : List (Int × Cell)} {p : HourPoint}
    (h : (acc.map Prod.fst).Nodup) : ((insertPoint acc p).map Prod.fst).Nodup := by
  induction acc with
  | nil => simp [insertPoint]
  | cons tc rest ih =>
      obtain ⟨t, c⟩ := tc
      simp only [List.map_cons, List.nodup_cons] at h
      by_cases ht : t = p.ts
      · subst ht
        simp [insertPoint, List.nodup_cons, h.1, h.2]
      · have tail := ih h.2
        have tnot : t ∉ (insertPoint rest p).map Prod.fst := by
          intro hmem
          rcases mem_keys_insertPoint hmem with he | he
          · exact ht he
          · exact h.1 he
        simp [insertPoint, ht, List.nodup_cons, tnot, tail]

theorem nodup_keys_foldl_insertPoint (pts : List HourPoint) (acc : List (Int × Cell))
    (h : (acc.map Prod.fst).Nodup) :
    ((pts.foldl insertPoint acc).map Prod.fst).Nodup := by
  induction pts generalizing acc with
  | nil => exact h
  | cons p rest ih => exact ih _ (nodup_keys_insertPoint h)

theorem lookupCell_of_mem {l : List (Int × Cell)} {ts : Int} {c : Cell}
    (hn : (l.map Prod.fst).Nodup) (h : (ts, c) ∈ l) : lookupCell l ts = some c := by
  induction l with
  | nil => simp at h
  | cons tc rest ih =>
      obtain ⟨t, x⟩ := tc
      simp only [List.map_cons, List.nodup_cons] at hn
      rcases List.mem_cons.mp h with he | hm
      · obtain ⟨h1, h2⟩ := Prod.mk.injEq .. ▸ he
        simp [lookupCell, h1, h2]
      · have hne : t ≠ ts := by
          intro he
          subst he
          exact hn.1 (List.mem_map_of_mem Prod.fst hm)
        simp [lookupCell, hne, ih hn.2 hm]

theorem mem_of_lookupCell {l : List (Int × Cell)} {ts : Int} {c : Cell}
    (h : lookupCell l ts = some c) : (ts, c) ∈ l := by
  induction l with
  | nil => simp [lookupCell] at h
  | cons tc rest ih =>
      obtain ⟨t, x⟩ := tc
      by_cases ht : t = ts
      · subst ht
        obtain rfl : x = c := by simpa [lookupCell] using h
        simp
      · simp only [lookupCell, if_neg ht] at h
        exact List.mem_cons_of_mem _ (ih h)

theorem fst_foldl_processPoint (pts : List HourPoint) (name : String)
    (st : List (Int × Cell) × List (String × Nat)) :
    (pts.foldl (fun s p => processPoint s name p) st).1 = pts.foldl insertPoint st.1 := by
  induction pts generalizing st with
  | nil => rfl
  | cons p rest ih => rw [List.foldl_cons, List.foldl_cons, ih]; rfl

theorem fst_foldl_processBatch (bs : List (String × Except Unit (List HourPoint)))
    (st : List (Int × Cell) × List (String × Nat)) :
    (bs.foldl processBatch st).1 = (allPoints bs).foldl insertPoint st.1 := by
  induction bs generalizing st with
  | nil => rfl
  | cons nb bs ih =>
      rw [List.foldl_cons, ih]
      obtain ⟨name, batch⟩ := nb
      cases batch with
      | error e => rfl
      | ok pts =>
          have hb : (processBatch st (name, Except.ok pts)).1 = pts.foldl insertPoint st.1 :=
            fst_foldl_processPoint pts name st
          have ha : allPoints ((name, Except.ok pts) :: bs) = pts ++ allPoints bs := rfl
          rw [hb, ha, List.foldl_append]

theorem results_lookup (bs : List (String × Except Unit (List HourPoint))) (ts : Int) :
    lookupCell ((bs.foldl processBatch ([], bs.map fun nb => (nb.1, 0))).1) ts =
      if (allPoints bs).any (fun p => p.ts = ts) then
        some ⟨cloudSamples (allPoints bs) ts, precipSamples (allPoints bs) ts⟩
      else none := by
  rw [fst_foldl_processBatch, foldl_insertPoint_lookup]
  simp only [lookupCell]
  rw [foldl_updCell_eq]
  simp [cloudSamples, precipSamples]

theorem nodup_results_keys (bs : List (String × Except Unit (List HourPoint))) :
    (((bs.foldl processBatch ([], bs.map fun nb => (nb.1, 0))).1).map Prod.fst).Nodup := by
  rw [fst_foldl_processBatch]
  exact nodup_keys_foldl_insertPoint _ _ (by simp)

theorem mem_fetch_averaged (bs : List (String × Except Unit (List HourPoint)))
    (ts : Int) (r : Consensus) :
    (ts, r) ∈ (fetch_all_providers bs).1 ↔
      ((cloudSamples (allPoints bs) ts ≠ [] ∨ precipSamples (allPoints bs) ts ≠ []) ∧
        r = ⟨avgOr 100 (cloudSamples (allPoints bs) ts),
             avgOr 0 (precipSamples (allPoints bs) ts)⟩) := by
  have hunf : (fetch_all_providers bs).1 = List.insertionSort keyLE
      (((bs.foldl processBatch ([], bs.map fun nb => (nb.1, 0))).1.filter fun tc =>
          !(tc.2.cloud.isEmpty && tc.2.precip.isEmpty)).map fun tc => (tc.1, fuseCell tc.2)) := rfl
  rw [hunf, (List.perm_insertionSort keyLE _).mem_iff, List.mem_map]
  constructor
  · rintro ⟨⟨t, c⟩, htc, heq⟩
    obtain ⟨h1, h2⟩ := Prod.mk.injEq .. ▸ heq
    obtain ⟨hmem, hpred⟩ := List.mem_filter.mp htc
    have h1' : t = ts := h1
    have hl := lookupCell_of_mem (nodup_results_keys bs) (h1' ▸ hmem)
    rw [results_lookup] at hl
    by_cases hany : (allPoints bs).any (fun p => p.ts = ts) = true
    · rw [if_pos hany] at hl
      have hc : c = ⟨cloudSamples (allPoints bs) ts, precipSamples (allPoints bs) ts⟩ :=
        (Option.some.injEq .. ▸ hl).symm
      subst hc
      simp only [Bool.not_eq_true', Bool.and_eq_false_iff] at hpred
      constructor
      · rcases hpred with h | h <;> [left; right] <;>
          simpa [List.isEmpty_eq_false] using h
      · rw [← h2]
        rfl
    · rw [if_neg hany] at hl
      exact absurd hl (by simp)
  · rintro ⟨hne, hr⟩
    have hany : (allPoints bs).any (fun p => p.ts = ts) = true := by
      rcases hne with h | h
      · obtain ⟨q, hq⟩ := List.exists_mem_of_ne_nil _ h
        obtain ⟨p, hp, _⟩ := List.mem_filterMap.mp hq
        obtain ⟨hpa, hpts⟩ := List.mem_filter.mp hp
        exact List.any_eq_true.mpr ⟨p, hpa, hpts⟩
      · obtain ⟨q, hq⟩ := List.exists_mem_of_ne_nil _ h
        obtain ⟨p, hp, _⟩ := List.mem_filterMap.mp hq
        obtain ⟨hpa, hpts⟩ := List.mem_filter.mp hp
        exact List.any_eq_true.mpr ⟨p, hpa, hpts⟩
    have hl : lookupCell ((bs.foldl processBatch ([], bs.map fun nb => (nb.1, 0))).1) ts =
        some ⟨cloudSamples (allPoints bs) ts, precipSamples (allPoints bs) ts⟩ := by
      rw [results_lookup, if_pos hany]
    refine ⟨(ts, ⟨cloudSamples (allPoints bs) ts, precipSamples (allPoints bs) ts⟩),
      List.mem_filter.mpr ⟨mem_of_lookupCell hl, ?_⟩, ?_⟩
    · simp only [Bool.not_eq_true', Bool.and_eq_false_iff]
      rcases hne with h | h <;> [left; right] <;> simpa [List.isEmpty_eq_false] using h
    · rw [hr]
      rfl

theorem fetch_averaged_sorted (bs : List (String × Except Unit (List HourPoint))) :
    ((fetch_all_providers bs).1.map Prod.fst).Pairwise (· < ·) := by
  have hunf : (fetch_all_providers bs).1 = List.insertionSort keyLE
      (((bs.foldl processBatch ([], bs.map fun nb => (nb.1, 0))).1.filter fun tc =>
          !(tc.2.cloud.isEmpty && tc.2.precip.isEmpty)).map fun tc => (tc.1, fuseCell tc.2)) := rfl
  have hs : (fetch_all_providers bs).1.Pairwise keyLE := by
    rw [hunf]
    exact List.sorted_insertionSort keyLE _
  have hnodA : ((((bs.foldl processBatch ([], bs.map fun nb => (nb.1, 0))).1.filter fun tc =>
      !(tc.2.cloud.isEmpty && tc.2.precip.isEmpty)).map
        fun tc => (tc.1, fuseCell tc.2)).map Prod.fst).Nodup := by
    rw [List.map_map]
    exact (nodup_results_keys bs).sublist
      ((List.filter_sublist _).map Prod.fst)
  have hnod : ((fetch_all_providers bs).1.map Prod.fst).Nodup := by
    rw [hunf]
    exact (((List.perm_insertionSort keyLE _).map Prod.fst).nodup_iff).mpr hnodA
  have hp2 : (fetch_all_providers bs).1.Pairwise (fun a b => a.1 ≠ b.1) :=
    List.pairwise_map.mp hnod
  rw [List.pairwise_map]
  exact (hs.and hp2).imp (fun h => lt_of_le_of_ne h.1 h.2)

/-- C1: for every collection of provider sample batches, the fused consensus
mapping produced by fetch_all_providers has exactly the timestamps carrying
at least one non-NaN cloud sample or one reported precip sample; each
entry's cloud value is the arithmetic mean of that hour's non-NaN cloud
samples (default 100.0 when there are none) and its precip value is the
arithmetic mean of that hour's reported precip samples (default 0.0 when
there are none); a timestamp with neither kind of sample is absent; and the
mapping is in strictly ascending timestamp order. -/
theorem fetch_all_providers_consensus_spec
    (bs : List (String × Except Unit (List HourPoint))) :
    (∀ ts r, (ts, r) ∈ (fetch_all_providers bs).1 ↔
        ((cloudSamples (allPoints bs) ts ≠ [] ∨ precipSamples (allPoints bs) ts ≠ []) ∧
          r = ⟨avgOr 100 (cloudSamples (allPoints bs) ts),
               avgOr 0 (precipSamples (allPoints bs) ts)⟩)) ∧
    ((fetch_all_providers bs).1.map Prod.fst).Pairwise (· < ·) :=
  ⟨fun ts r => mem_fetch_averaged bs ts r, fetch_averaged_sorted bs⟩

/-! Lemmas for the failure-isolation claim. -/

theorem allPoints_filter_ok (bs : List (String × Except Unit (List HourPoint))) :
    allPoints (bs.filter fun nb => exceptOk nb.2) = allPoints bs := by
  induction bs with
  | nil => rfl
  | cons nb bs ih =>
      obtain ⟨name, batch⟩ := nb
      cases batch with
      | error e =>
          have h1 : ((name, Except.error e) :: bs).filter (fun nb => exceptOk nb.2) =
              bs.filter (fun nb => exceptOk nb.2) := by
            rw [List.filter_cons]
            simp [exceptOk]
          rw [h1, ih]
          rfl
      | ok pts =>
          have h1 : ((name, Except.ok pts) :: bs).filter (fun nb => exceptOk nb.2) =
              (name, Except.ok pts) :: bs.filter (fun nb => exceptOk nb.2) := by
            rw [List.filter_cons]
            simp [exceptOk]
          rw [h1]
          show pts ++ allPoints (bs.filter fun nb => exceptOk nb.2) = pts ++ allPoints bs
          rw [ih]

theorem snd_foldl_processPoint (pts : List HourPoint) (name : String)
    (st : List (Int × Cell) × List (String × Nat)) :
    (pts.foldl (fun s p => processPoint s name p) st).2 =
      pts.foldl (fun cc p => if p.cloud.isSome then bump cc name else cc) st.2 := by
  induction pts generalizing st with
  | nil => rfl
  | cons p rest ih =>
      rw [List.foldl_cons, List.foldl_cons, ih]
      rcases h : p.cloud.isSome with _ | _ <;> simp [processPoint, h]

theorem lookupN_bump_ne {c : List (String × Nat)} {m n : String} (h : m ≠ n) :
    lookupN (bump c m) n = lookupN c n := by
  induction c with
  | nil => rfl
  | cons nk rest ih =>
      obtain ⟨n0, k0⟩ := nk
      by_cases h0 : n0 = m
      · subst h0
        simp [bump, lookupN, h]
      · simp [bump, lookupN, h0, ih]

theorem lookupN_foldl_bump_ne (pts : List HourPoint) {name n : String}
    (h : name ≠ n) (c : List (String × Nat)) :
    lookupN (pts.foldl (fun cc p => if p.cloud.isSome then bump cc name else cc) c) n =
      lookupN c n := by
  induction pts generalizing c with
  | nil => rfl
  | cons p rest ih =>
      rw [List.foldl_cons, ih]
      rcases hc : p.cloud.isSome with _ | _
      · simp [hc]
      · simp [hc, lookupN_bump_ne h]

theorem lookupN_foldl_processBatch (bs : List (String × Except Unit (List HourPoint)))
    (st : List (Int × Cell) × List (String × Nat)) {n : String}
    (h : ∀ nb ∈ bs, nb.1 = n → exceptOk nb.2 = false) :
    lookupN ((bs.foldl processBatch st).2) n = lookupN st.2 n := by
  induction bs generalizing st with
  | nil => rfl
  | cons nb bs ih =>
      obtain ⟨name, batch⟩ := nb
      rw [List.foldl_cons,
        ih _ (fun x hx hfx => h x (List.mem_cons_of_mem _ hx) hfx)]
      cases batch with
      | error e => rfl
      | ok pts =>
          have hne : name ≠ n := by
            intro he
            exact absurd (h (name, Except.ok pts) (List.mem_cons_self _ _) he)
              (by simp [exceptOk])
          show lookupN ((pts.foldl (fun s p => processPoint s name p) st).2) n = _
          rw [snd_foldl_processPoint]
          exact lookupN_foldl_bump_ne pts hne st.2

theorem lookupN_init_zero {bs : List (String × Except Unit (List HourPoint))} {n : String}
    (h : n ∈ bs.map Prod.fst) :
    lookupN (bs.map fun nb => (nb.1, 0)) n = some 0 := by
  induction bs with
  | nil => simp at h
  | cons nb bs ih =>
      by_cases he : nb.1 = n
      · simp [lookupN, he]
      · have h2 : n ∈ bs.map Prod.fst := by
          rw [List.map_cons, List.mem_cons] at h
          rcases h with h1 | h1
          · exact absurd h1.symm he
          · exact h1
        simp [lookupN, he, ih h2]

theorem eq_of_fst_eq_of_nodup {α β : Type} {l : List (α × β)}
    (h : (l.map Prod.fst).Nodup) {a b : α × β} (ha : a ∈ l) (hb : b ∈ l)
    (hf : a.1 = b.1) : a = b := by
  induction l with
  | nil => simp at ha
  | cons c rest ih =>
      simp only [List.map_cons, List.nodup_cons] at h
      rcases List.mem_cons.mp ha with h1 | h1 <;> rcases List.mem_cons.mp hb with h2 | h2
      · rw [h1, h2]
      · exact absurd (by rw [← h1, hf]; exact List.mem_map_of_mem Prod.fst h2) h.1
      · exact absurd (by rw [← h2, ← hf]; exact List.mem_map_of_mem Prod.fst h1) h.1
      · exact ih h.2 h1 h2

/-- C2: a failing provider's exception never aborts the fan-out (the
embedding of fetch_all_providers is total over batches containing errors),
the consensus mapping equals the fusion of the successful batches alone, and
every provider whose batch is an exception is recorded with contribution
count 0. -/
theorem fetch_all_providers_failure_isolation
    (bs : List (String × Except Unit (List HourPoint)))
    (hnd : (bs.map Prod.fst).Nodup) :
    (fetch_all_providers bs).1 = (fetch_all_providers (bs.filter fun nb => exceptOk nb.2)).1 ∧
    ∀ n e, (n, Except.error e) ∈ bs → lookupN (fetch_all_providers bs).2 n = some 0 := by
  constructor
  · have h1 : ∀ cs : List (String × Except Unit (List HourPoint)),
        (fetch_all_providers cs).1 = List.insertionSort keyLE
          ((((allPoints cs).foldl insertPoint []).filter fun tc =>
            !(tc.2.cloud.isEmpty && tc.2.precip.isEmpty)).map fun tc => (tc.1, fuseCell tc.2)) := by
      intro cs
      show List.insertionSort keyLE
          (((cs.foldl processBatch ([], cs.map fun nb => (nb.1, 0))).1.filter fun tc =>
            !(tc.2.cloud.isEmpty && tc.2.precip.isEmpty)).map fun tc => (tc.1, fuseCell tc.2)) = _
      rw [fst_foldl_processBatch]
    rw [h1 bs, h1 (bs.filter fun nb => exceptOk nb.2), allPoints_filter_ok]
  · intro n e hmem
    have hnotok : ∀ nb ∈ bs, nb.1 = n → exceptOk nb.2 = false := by
      intro nb hnb heq
      have : nb = (n, Except.error e) :=
        eq_of_fst_eq_of_nodup hnd hnb hmem heq
      rw [this]
      rfl
    show lookupN ((bs.foldl processBatch ([], bs.map fun nb => (nb.1, 0))).2) n = some 0
    rw [lookupN_foldl_processBatch bs _ hnotok]
    exact lookupN_init_zero (List.mem_map_of_mem Prod.fst hmem)

/-- Witness for C2 at a concrete fan-out: provider A succeeds with one
sample, provider B raises; the consensus equals the fusion of A alone and B
is recorded with contribution 0. -/
theorem fetch_all_providers_failure_isolation_witness :
    ((([("A", Except.ok [(⟨0, some 10, some 5⟩ : HourPoint)]), ("B", Except.error ())]).map
        Prod.fst).Nodup) ∧
    (fetch_all_providers [("A", Except.ok [(⟨0, some 10, some 5⟩ : HourPoint)]),
        ("B", Except.error ())]).1 =
      (fetch_all_providers (([("A", Except.ok [(⟨0, some 10, some 5⟩ : HourPoint)]),
        ("B", Except.error ())]).filter fun nb => exceptOk nb.2)).1 ∧
    lookupN (fetch_all_providers [("A", Except.ok [(⟨0, some 10, some 5⟩ : HourPoint)]),
        ("B", Except.error ())]).2 "B" = some 0 := by
  refine ⟨by decide, ?_⟩
  have h := fetch_all_providers_failure_isolation
    [("A", Except.ok [(⟨0, some 10, some 5⟩ : HourPoint)]), ("B", Except.error ())]
    (by decide)
  exact ⟨h.1, h.2 "B" () (List.mem_cons_of_mem _ (List.mem_cons_self _ _))⟩

/-! Lemmas about the window-merging loop of summarize_windows. -/

theorem gridPts_toNat (a : Int) (m : Nat) :
    ((a + 3600 * (m : Int) - a) / 3600).toNat = m := by omega

theorem gridPts_eval (a : Int) (m : Nat) :
    gridPts a (a + 3600 * (m : Int)) =
      (List.range m).map fun k : Nat => a + 3600 * (k : Int) := by
  unfold gridPts
  rw [gridPts_toNat]

theorem gridPts_single (a : Int) : gridPts a (a + 3600) = [a] := by
  have h : gridPts a (a + 3600 * ((1 : Nat) : Int)) = [a] := by
    rw [gridPts_eval]
    simp [List.range_succ]
  have h2 : a + 3600 = a + 3600 * ((1 : Nat) : Int) := by norm_num
  rw [h2]
  exact h

theorem gridPts_append (a : Int) (n : Nat) :
    gridPts a (a + 3600 * (((n + 1 : Nat) : Int))) =
      gridPts a (a + 3600 * (n : Int)) ++ [a + 3600 * (n : Int)] := by
  rw [gridPts_eval, gridPts_eval, List.range_succ, List.map_append]
  rfl

theorem mergeLoop_flatMap (l : List Int) :
    ∀ (start : Int) (n : Nat),
      (mergeLoop start (start + 3600 * (n : Int)) l).flatMap (fun ab => gridPts ab.1 ab.2) =
        gridPts start (start + 3600 * ((n : Int) + 1)) ++ l := by
  induction l with
  | nil =>
      intro start n
      have h1 : start + 3600 * (n : Int) + 3600 = start + 3600 * ((n : Int) + 1) := by ring
      simp [mergeLoop, h1]
  | cons ts rest ih =>
      intro start n
      rw [mergeLoop]
      by_cases h : ts - (start + 3600 * (n : Int)) = 3600
      · rw [if_pos h]
        have hts : ts = start + 3600 * (((n + 1 : Nat) : Int)) := by push_cast; omega
        rw [hts, ih start (n + 1)]
        have h4 : (((n + 1 : Nat) : Int)) + 1 = (((n + 1 + 1 : Nat) : Int)) := by
          push_cast
          ring
        rw [h4, gridPts_append start (n + 1)]
        have h5 : ((n : Int) + 1) = (((n + 1 : Nat) : Int)) := by push_cast; ring
        rw [h5, List.append_assoc]
        rfl
      · rw [if_neg h]
        rw [List.flatMap_cons]
        have h0 : mergeLoop ts ts rest = mergeLoop ts (ts + 3600 * ((0 : Nat) : Int)) rest := by
          norm_num
        rw [h0, ih ts 0]
        have h2 : gridPts ts (ts + 3600 * (((0 : Nat) : Int) + 1)) = [ts] := by
          have h3 : ts + 3600 * (((0 : Nat) : Int) + 1) = ts + 3600 := by norm_num
          rw [h3, gridPts_single]
        rw [h2]
        have h1 : start + 3600 * (n : Int) + 3600 = start + 3600 * ((n : Int) + 1) := by ring
        rw [h1]
        rfl

theorem rawWindows_flatMap (L : List Int) :
    (rawWindows L).flatMap (fun ab => gridPts ab.1 ab.2) = L := by
  cases L with
  | nil => rfl
  | cons t rest =>
      show (mergeLoop t t rest).flatMap (fun ab => gridPts ab.1 ab.2) = t :: rest
      have h0 : mergeLoop t t rest = mergeLoop t (t + 3600 * ((0 : Nat) : Int)) rest := by
        norm_num
      rw [h0, mergeLoop_flatMap rest t 0]
      have h2 : gridPts t (t + 3600 * (((0 : Nat) : Int) + 1)) = [t] := by
        have h3 : t + 3600 * (((0 : Nat) : Int) + 1) = t + 3600 := by norm_num
        rw [h3, gridPts_single]
      rw [h2]
      rfl

theorem mergeLoop_windows (l : List Int) :
    ∀ (start prev : Int), (3600 : Int) ∣ start → (3600 : Int) ∣ prev → start ≤ prev →
      (∀ x ∈ l, (3600 : Int) ∣ x) →
      ∀ w ∈ mergeLoop start prev l,
        (3600 : Int) ∣ w.1 ∧ (3600 : Int) ∣ w.2 ∧ w.1 + 3600 ≤ w.2 := by
  induction l with
  | nil =>
      intro start prev h1 h2 h3 _ w hw
      simp only [mergeLoop, List.mem_singleton] at hw
      subst hw
      refine ⟨h1, ?_, ?_⟩ <;> omega
  | cons ts rest ih =>
      intro start prev h1 h2 h3 hal w hw
      rw [mergeLoop] at hw
      by_cases h : ts - prev = 3600
      · rw [if_pos h] at hw
        exact ih start ts h1 (by omega) (by omega)
          (fun x hx => hal x (List.mem_cons_of_mem _ hx)) w hw
      · rw [if_neg h] at hw
        rcases List.mem_cons.mp hw with he | hm
        · subst he
          refine ⟨h1, ?_, ?_⟩ <;> omega
        · exact ih ts ts (hal ts (List.mem_cons_self _ _)) (hal ts (List.mem_cons_self _ _))
            le_rfl (fun x hx => hal x (List.mem_cons_of_mem _ hx)) w hm

theorem rawWindows_bounds {L : List Int} (halL : ∀ x ∈ L, (3600 : Int) ∣ x) :
    ∀ w ∈ rawWindows L, (3600 : Int) ∣ w.1 ∧ (3600 : Int) ∣ w.2 ∧ w.1 + 3600 ≤ w.2 := by
  cases L with
  | nil => intro w hw; simp [rawWindows] at hw
  | cons t rest =>
      exact mergeLoop_windows rest t t (halL t (List.mem_cons_self _ _))
        (halL t (List.mem_cons_self _ _)) le_rfl
        (fun x hx => halL x (List.mem_cons_of_mem _ hx))

theorem mem_gridPts {a b t : Int} (h1 : a ≤ t) (h2 : t < b) (hd : (3600 : Int) ∣ (t - a))
    (hdb : (3600 : Int) ∣ (b - a)) : t ∈ gridPts a b := by
  unfold gridPts
  rw [List.mem_map]
  refine ⟨((t - a) / 3600).toNat, List.mem_range.mpr ?_, ?_⟩ <;> omega

theorem mergeLoop_head (l : List Int) :
    ∀ start prev : Int, ∃ b tl, mergeLoop start prev l = (start, b) :: tl := by
  induction l with
  | nil => intro start prev; exact ⟨prev + 3600, [], rfl⟩
  | cons ts rest ih =>
      intro start prev
      rw [mergeLoop]
      by_cases h : ts - prev = 3600
      · rw [if_pos h]; exact ih start ts
      · rw [if_neg h]; exact ⟨prev + 3600, mergeLoop ts ts rest, rfl⟩

theorem mergeLoop_chain (l : List Int) :
    ∀ start prev : Int, (3600 : Int) ∣ start → (3600 : Int) ∣ prev →
      (∀ x ∈ l, (3600 : Int) ∣ x) → List.Chain' (· < ·) (prev :: l) →
      List.Chain' (fun w1 w2 : Int × Int => w1.2 + 3600 ≤ w2.1) (mergeLoop start prev l) := by
  induction l with
  | nil => intro start prev _ _ _ _; simp [mergeLoop]
  | cons ts rest ih =>
      intro start prev h1 h2 hal hchain
      obtain ⟨hlt, hchain2⟩ := List.chain'_cons.mp hchain
      rw [mergeLoop]
      by_cases h : ts - prev = 3600
      · rw [if_pos h]
        exact ih start ts h1 (by omega)
          (fun x hx => hal x (List.mem_cons_of_mem _ hx)) hchain2
      · rw [if_neg h]
        obtain ⟨b, tl, he⟩ := mergeLoop_head rest ts ts
        rw [he]
        refine List.chain'_cons.mpr ⟨?_, ?_⟩
        · have hts : (3600 : Int) ∣ ts := hal ts (List.mem_cons_self _ _)
          show prev + 3600 + 3600 ≤ ts
          omega
        · rw [← he]
          exact ih ts ts (hal ts (List.mem_cons_self _ _)) (hal ts (List.mem_cons_self _ _))
            (fun x hx => hal x (List.mem_cons_of_mem _ hx)) hchain2

theorem mem_allowedTs {cfg : Config} {averaged : List (Int × Consensus)}
    (hnd : (averaged.map Prod.fst).Nodup) {ts : Int} {r : Consensus}
    (h : (ts, r) ∈ averaged) :
    ts ∈ allowedTs cfg averaged ↔
      (r.cloud ≤ cfg.cloudThreshold ∧ r.precip ≤ cfg.precipThreshold) := by
  constructor
  · intro hm
    obtain ⟨tv, htv, hf⟩ := List.mem_map.mp hm
    obtain ⟨htv2, hpred⟩ := List.mem_filter.mp htv
    have he : tv = (ts, r) := eq_of_fst_eq_of_nodup hnd htv2 h hf
    rw [he] at hpred
    simpa using hpred
  · intro hu
    exact List.mem_map.mpr ⟨(ts, r), List.mem_filter.mpr ⟨h, by simpa using hu⟩, rfl⟩

theorem allowedTs_nodup {cfg : Config} {averaged : List (Int × Consensus)}
    (hnd : (averaged.map Prod.fst).Nodup) : (allowedTs cfg averaged).Nodup :=
  hnd.sublist ((List.filter_sublist _).map Prod.fst)

theorem allowedTs_subset_keys {cfg : Config} {averaged : List (Int × Consensus)}
    {x : Int} (hx : x ∈ allowedTs cfg averaged) : x ∈ averaged.map Prod.fst := by
  obtain ⟨tv, htv, hf⟩ := List.mem_map.mp hx
  exact hf ▸ List.mem_map_of_mem Prod.fst (List.mem_filter.mp htv).1

theorem mem_allowedTs_exists {cfg : Config} {averaged : List (Int × Consensus)}
    {x : Int} (hx : x ∈ allowedTs cfg averaged) :
    ∃ r, (x, r) ∈ averaged ∧ r.cloud ≤ cfg.cloudThreshold ∧
      r.precip ≤ cfg.precipThreshold := by
  obtain ⟨tv, htv, hf⟩ := List.mem_map.mp hx
  obtain ⟨htv2, hpred⟩ := List.mem_filter.mp htv
  refine ⟨tv.2, ?_, by simpa using hpred⟩
  rw [← hf]
  exact htv2

theorem sortedAllowed_chain {cfg : Config} {averaged : List (Int × Consensus)}
    (hnd : (averaged.map Prod.fst).Nodup) :
    List.Chain' (· < ·) (List.insertionSort (· ≤ ·) (allowedTs cfg averaged)) := by
  have hs : List.Sorted (· ≤ ·) (List.insertionSort (· ≤ ·) (allowedTs cfg averaged)) :=
    List.sorted_insertionSort _ _
  have hn : (List.insertionSort (· ≤ ·) (allowedTs cfg averaged)).Nodup :=
    (List.perm_insertionSort _ _).nodup_iff.mpr (allowedTs_nodup hnd)
  exact ((hs.and hn).imp fun h => lt_of_le_of_ne h.1 h.2).chain'

theorem summarize_windows_raw_chain {cfg : Config} {averaged : List (Int × Consensus)}
    (hnd : (averaged.map Prod.fst).Nodup)
    (hal : ∀ ts ∈ averaged.map Prod.fst, (3600 : Int) ∣ ts) :
    List.Chain' (fun w1 w2 : Int × Int => w1.2 + 3600 ≤ w2.1)
      (rawWindows (List.insertionSort (· ≤ ·) (allowedTs cfg averaged))) := by
  have halL : ∀ x ∈ List.insertionSort (· ≤ ·) (allowedTs cfg averaged), (3600 : Int) ∣ x := by
    intro x hx
    exact hal x (allowedTs_subset_keys ((List.perm_insertionSort _ _).mem_iff.mp hx))
  have hchain := @sortedAllowed_chain cfg averaged hnd
  cases hL : List.insertionSort (· ≤ ·) (allowedTs cfg averaged) with
  | nil => simp [rawWindows]
  | cons t rest =>
      rw [hL] at hchain halL
      exact mergeLoop_chain rest t t (halL t (List.mem_cons_self _ _))
        (halL t (List.mem_cons_self _ _)) (fun x hx => halL x (List.mem_cons_of_mem _ hx))
        hchain

theorem summarize_example (cfg : Config) (T : Int) (u : Consensus)
    (hc : u.cloud ≤ cfg.cloudThreshold) (hp : u.precip ≤ cfg.precipThreshold)
    (hm : cfg.minWindowHours = 1) :
    summarize_windows cfg [(T, u), (T + 3600, u), (T + 7200, u), (T + 14400, u)] =
      [(T, T + 10800), (T + 14400, T + 18000)] := by
  have hu : decide (u.cloud ≤ cfg.cloudThreshold ∧ u.precip ≤ cfg.precipThreshold) = true := by
    simp [hc, hp]
  have hall : allowedTs cfg [(T, u), (T + 3600, u), (T + 7200, u), (T + 14400, u)] =
      [T, T + 3600, T + 7200, T + 14400] := by
    simp [allowedTs, List.filter_cons, hc, hp]
  have hsorted : List.Sorted (· ≤ ·) [T, T + 3600, T + 7200, T + 14400] := by
    apply List.sorted_cons.mpr
    refine ⟨fun b hb => ?_, ?_⟩
    · simp only [List.mem_cons, List.mem_singleton, List.not_mem_nil, or_false] at hb
      rcases hb with rfl | rfl | rfl <;> omega
    apply List.sorted_cons.mpr
    refine ⟨fun b hb => ?_, ?_⟩
    · simp only [List.mem_cons, List.mem_singleton, List.not_mem_nil, or_false] at hb
      rcases hb with rfl | rfl <;> omega
    apply List.sorted_cons.mpr
    refine ⟨fun b hb => ?_, ?_⟩
    · simp only [List.mem_singleton, List.mem_cons, List.not_mem_nil, or_false] at hb
      subst hb
      omega
    simp
  have hraw : rawWindows [T, T + 3600, T + 7200, T + 14400] =
      [(T, T + 10800), (T + 14400, T + 18000)] := by
    show mergeLoop T T [T + 3600, T + 7200, T + 14400] = _
    rw [mergeLoop, if_pos (by omega : T + 3600 - T = 3600)]
    rw [mergeLoop, if_pos (by omega : T + 7200 - (T + 3600) = 3600)]
    rw [mergeLoop, if_neg (by omega : ¬T + 14400 - (T + 7200) = 3600)]
    rw [mergeLoop]
    norm_num
    omega
  have hne : ¬([T, T + 3600, T + 7200, T + 14400] = ([] : List Int)) := by simp
  show (if allowedTs cfg [(T, u), (T + 3600, u), (T + 7200, u), (T + 14400, u)] = [] then []
    else (rawWindows (List.insertionSort (· ≤ ·)
        (allowedTs cfg [(T, u), (T + 3600, u), (T + 7200, u), (T + 14400, u)]))).filter
      fun ab => decide (((ab.2 - ab.1 : Int) : ℚ) / 3600 ≥ cfg.minWindowHours)) = _
  rw [hall, if_neg hne, hsorted.insertionSort_eq, hraw]
  rw [List.filter_cons, List.filter_cons, List.filter_nil]
  rw [if_pos (by rw [hm]; push_cast; ring_nf; norm_num),
    if_pos (by rw [hm]; push_cast; ring_nf; norm_num)]

/-- C3: the window extractor of summarize_windows.  An hour is usable iff its
cloud and precip values meet both thresholds; on the sorted usable
timestamps the merging loop produces windows whose hour grids concatenate
back to exactly the sorted usable list (runs of consecutive usable hours,
each materialised as the half-open interval first..last + 3600), with at
least a one-hour gap between consecutive windows; windows shorter than
minWindowHours are discarded; zero usable hours yields the empty list; and
the concrete {T, T+3600, T+7200, T+14400} scenario with minWindowHours = 1
yields exactly the windows [T, T+10800) and [T+14400, T+18000). -/
theorem summarize_windows_spec (cfg : Config) (averaged : List (Int × Consensus))
    (hnd : (averaged.map Prod.fst).Nodup)
    (hal : ∀ ts ∈ averaged.map Prod.fst, (3600 : Int) ∣ ts) :
    (∀ ts r, (ts, r) ∈ averaged →
      (ts ∈ allowedTs cfg averaged ↔
        (r.cloud ≤ cfg.cloudThreshold ∧ r.precip ≤ cfg.precipThreshold))) ∧
    (allowedTs cfg averaged = [] → summarize_windows cfg averaged = []) ∧
    ((rawWindows (List.insertionSort (· ≤ ·) (allowedTs cfg averaged))).flatMap
        (fun ab => gridPts ab.1 ab.2) =
      List.insertionSort (· ≤ ·) (allowedTs cfg averaged)) ∧
    List.Chain' (fun w1 w2 : Int × Int => w1.2 + 3600 ≤ w2.1)
      (rawWindows (List.insertionSort (· ≤ ·) (allowedTs cfg averaged))) ∧
    (summarize_windows cfg averaged =
      if allowedTs cfg averaged = [] then []
      else (rawWindows (List.insertionSort (· ≤ ·) (allowedTs cfg averaged))).filter
        fun ab => decide (((ab.2 - ab.1 : Int) : ℚ) / 3600 ≥ cfg.minWindowHours)) ∧
    (∀ T u, u.cloud ≤ cfg.cloudThreshold → u.precip ≤ cfg.precipThreshold →
      cfg.minWindowHours = 1 →
      summarize_windows cfg [(T, u), (T + 3600, u), (T + 7200, u), (T + 14400, u)] =
        [(T, T + 10800), (T + 14400, T + 18000)]) :=
  ⟨fun ts r h => mem_allowedTs hnd h,
   fun h => by simp [summarize_windows, h],
   rawWindows_flatMap _,
   summarize_windows_raw_chain hnd hal,
   rfl,
   fun T u hc hp hm => summarize_example cfg T u hc hp hm⟩

/-- Witness for C3 at a concrete configuration and mapping: thresholds 35/20,
minimum one hour, and usable hours 0, 3600, 7200, 14400. -/
theorem summarize_windows_spec_witness :
    (([((0 : Int), (⟨10, 5⟩ : Consensus)), (3600, ⟨10, 5⟩), (7200, ⟨10, 5⟩),
        (14400, ⟨10, 5⟩)].map Prod.fst).Nodup) ∧
    summarize_windows ⟨35, 20, 1, 60, false, 40, 15, 0, false⟩
        [((0 : Int), (⟨10, 5⟩ : Consensus)), (3600, ⟨10, 5⟩), (7200, ⟨10, 5⟩),
          (14400, ⟨10, 5⟩)] = [(0, 10800), (14400, 18000)] := by
  refine ⟨by decide, ?_⟩
  have h := summarize_windows_spec ⟨35, 20, 1, 60, false, 40, 15, 0, false⟩
    [((0 : Int), (⟨10, 5⟩ : Consensus)), (3600, ⟨10, 5⟩), (7200, ⟨10, 5⟩), (14400, ⟨10, 5⟩)]
    (by decide) (by decide)
  have h2 := h.2.2.2.2.2 0 ⟨10, 5⟩ (by norm_num) (by norm_num) rfl
  simpa using h2

/-- C4: when the solar computation succeeds (returning a sunset strictly
before the next date's sunrise), the produced night window has dusk =
sunset + 90 min and dawn = sunrise - 90 min, except when that would make
dawn ≤ dusk, in which case the window is exactly (sunset, sunrise); and
every produced window satisfies dawn > dusk strictly, dusk ≥ sunset and
dawn ≤ sunrise.  90 minutes is 5400 seconds. -/
theorem night_window_invariants (s1 s2 d1 d2 : Int) (hss : s1 < s2)
    (h : night_window (Except.ok (s1, s2)) = Except.ok (d1, d2)) :
    (s1 + 5400 < s2 - 5400 → (d1, d2) = (s1 + 5400, s2 - 5400)) ∧
    (s2 - 5400 ≤ s1 + 5400 → (d1, d2) = (s1, s2)) ∧
    d1 < d2 ∧ s1 ≤ d1 ∧ d2 ≤ s2 := by
  simp only [night_window] at h
  by_cases hc : s2 - 5400 ≤ s1 + 5400
  · rw [if_pos hc] at h
    injection h with h'
    obtain ⟨h1, h2⟩ := Prod.mk.injEq .. ▸ h'
    subst h1
    subst h2
    exact ⟨fun hlt => absurd hlt (by omega), fun _ => rfl, hss, le_rfl, le_rfl⟩
  · rw [if_neg hc] at h
    injection h with h'
    obtain ⟨h1, h2⟩ := Prod.mk.injEq .. ▸ h'
    subst h1
    subst h2
    exact ⟨fun _ => rfl, fun hle => absurd hle hc, by omega, by omega, by omega⟩

/-- Witness for C4 at sunset 0 and sunrise 100000 (a long night, no
collapse). -/
theorem night_window_invariants_witness :
    ((0 : Int) < 100000) ∧
    (((0 : Int) + 5400 < 100000 - 5400 → ((5400 : Int), (94600 : Int)) = (0 + 5400, 100000 - 5400)) ∧
     ((100000 : Int) - 5400 ≤ 0 + 5400 → ((5400 : Int), (94600 : Int)) = (0, 100000)) ∧
     (5400 : Int) < 94600 ∧ (0 : Int) ≤ 5400 ∧ (94600 : Int) ≤ 100000) :=
  ⟨by decide, night_window_invariants 0 100000 5400 94600 (by decide) rfl⟩

/-! Lemmas about the moon classification, the moon filter and build_message. -/

/-- C6 (code bug): on a date where the moonrise lookup succeeds and the
moonset lookup finds no event (priority rule 3), moon_info builds the
interval [rise, end-of-day] with a bare date as its end, exactly as the six
priority rules prescribe; but classify_moon_vs_night then raises a TypeError
(Python cannot order a bare date against a datetime in min/max) instead of
clipping the interval to the night window and deriving a status. -/
theorem classify_moon_date_endpoint_bug :
    moonIntervals ⟨0, 0, 7, some 1000, none, none, none⟩ = [(TV.dtm 1000, TV.dte 1)] ∧
    classify_moon_vs_night ⟨0, 0, 7, some 1000, none, none, none⟩ 500 2000 =
      Except.error () :=
  ⟨rfl, rfl⟩

/-- C7 (code bug): with the moon filter enabled, a non-empty consensus
mapping, and illumination 0 (below the 40-percent maximum, so the claim
demands the identity), a rise-only moon day makes filter_by_moon raise the
same TypeError inside classify_moon_vs_night instead of returning the
mapping unchanged. -/
theorem filter_by_moon_date_endpoint_bug :
    filter_by_moon ⟨35, 20, 1, 60, true, 40, 15, 0, false⟩
        ⟨0, 0, 7, some 1000, none, none, none⟩ [(800, ⟨10, 5⟩)] 500 2000 =
      Except.error () := rfl

theorem filter_by_moon_ok {cfg : Config} {mo : MoonOracle}
    {averaged : List (Int × Consensus)} {d1 d2 : Int}
    {z : ℚ × ℚ × List (TV × TV) × List (Int × Int) × MoonStatus}
    (hm : classify_moon_vs_night mo d1 d2 = Except.ok z) :
    ∃ av2, filter_by_moon cfg mo averaged d1 d2 = Except.ok av2 := by
  unfold filter_by_moon
  by_cases h1 : ¬cfg.useMoonFilter ∨ averaged = []
  · rw [if_pos h1]
    exact ⟨averaged, rfl⟩
  · rw [if_neg h1, hm]
    obtain ⟨illum, age, ints, ovl, st⟩ := z
    by_cases h2 : illum ≤ cfg.moonMaxIllum ∨ ovl = []
    · refine ⟨averaged, ?_⟩
      show (if illum ≤ cfg.moonMaxIllum ∨ ovl = [] then Except.ok averaged
        else Except.ok (averaged.filter fun tv =>
          !(ovl.any fun ab => decide (ab.1 ≤ tv.1 ∧ tv.1 < ab.2)))) = Except.ok averaged
      rw [if_pos h2]
    · refine ⟨averaged.filter fun tv =>
        !(ovl.any fun ab => decide (ab.1 ≤ tv.1 ∧ tv.1 < ab.2)), ?_⟩
      show (if illum ≤ cfg.moonMaxIllum ∨ ovl = [] then Except.ok averaged
        else Except.ok (averaged.filter fun tv =>
          !(ovl.any fun ab => decide (ab.1 ≤ tv.1 ∧ tv.1 < ab.2)))) = _
      rw [if_neg h2]

theorem fmt_report_ok {cfg : Config} {mo : MoonOracle} {d1 d2 : Int}
    {averaged : List (Int × Consensus)} {windows : List (Int × Int)}
    {contrib : List (String × Nat)}
    {z : ℚ × ℚ × List (TV × TV) × List (Int × Int) × MoonStatus}
    (hm : classify_moon_vs_night mo d1 d2 = Except.ok z) :
    fmt_report cfg mo d1 d2 averaged windows contrib =
      Except.ok ⟨make_summary_line cfg (compute_clear_fraction cfg averaged d1 d2) windows,
        z.1, z.2.2.2.2,
        (if averaged = [] then Body.noData
         else if windows = [] then Body.noWindows
         else Body.listing (windows.map fun ab => (ab.1, ab.2, bulletAvg averaged ab.1 ab.2))),
        (if cfg.showSources then some (contrib.filter fun nv => decide (0 < nv.2)) else none)⟩ := by
  obtain ⟨illum, age, ints, ovl, st⟩ := z
  unfold fmt_report
  rw [hm]

theorem build_message_eq_ok {env : Env} {d1 d2 : Int}
    (hn : night_window env.solar = Except.ok (d1, d2)) :
    build_message env =
      match filter_by_moon env.cfg env.mo (fetch_all_providers env.batches).1 d1 d2 with
      | .error e => .error e
      | .ok averaged2 => fmt_report env.cfg env.mo d1 d2 averaged2
          (summarize_windows env.cfg averaged2) (fetch_all_providers env.batches).2 := by
  unfold build_message
  rw [hn]

theorem allPoints_nil_of_all_error {bs : List (String × Except Unit (List HourPoint))}
    (h : ∀ nb ∈ bs, exceptOk nb.2 = false) : allPoints bs = [] := by
  induction bs with
  | nil => rfl
  | cons nb bs ih =>
      have h1 := h nb (List.mem_cons_self _ _)
      have h2 : allPoints (nb :: bs) =
          (match nb.2 with | .ok pts => pts | .error _ => []) ++ allPoints bs := rfl
      cases hb : nb.2 with
      | ok pts => rw [hb] at h1; simp [exceptOk] at h1
      | error e =>
          rw [h2, hb, ih (fun x hx => h x (List.mem_cons_of_mem _ hx))]
          rfl

theorem fetch_averaged_nil_of_all_error {bs : List (String × Except Unit (List HourPoint))}
    (h : ∀ nb ∈ bs, exceptOk nb.2 = false) : (fetch_all_providers bs).1 = [] := by
  have hempty : (bs.foldl processBatch ([], bs.map fun nb => (nb.1, 0))).1 = [] := by
    rw [fst_foldl_processBatch, allPoints_nil_of_all_error h]
    rfl
  show List.insertionSort keyLE
      (((bs.foldl processBatch ([], bs.map fun nb => (nb.1, 0))).1.filter fun tc =>
        !(tc.2.cloud.isEmpty && tc.2.precip.isEmpty)).map fun tc => (tc.1, fuseCell tc.2)) = []
  rw [hempty]
  rfl

/-- C5 counterexample: the claim says building a report never raises, but a
solar-computation failure is not caught anywhere in night_window or
build_message: the embedding propagates the exception and no report value is
produced. -/
theorem build_message_solar_failure_counterexample :
    build_message ⟨Except.error (), ⟨0, 0, 7, none, none, none, none⟩, [],
      ⟨35, 20, 1, 60, false, 40, 15, 0, false⟩⟩ = Except.error () := rfl

/-- C5 as amended: a solar failure propagates out of build_message (it is not
surfaced as a no-window report); when the solar computation succeeds and the
moon classification itself does not raise, a report is always produced, and
total provider exhaustion yields the no-data body rather than an
exception. -/
theorem build_message_amended (env : Env) (d1 d2 : Int)
    (z : ℚ × ℚ × List (TV × TV) × List (Int × Int) × MoonStatus)
    (hn : night_window env.solar = Except.ok (d1, d2))
    (hm : classify_moon_vs_night env.mo d1 d2 = Except.ok z) :
    ∃ r, build_message env = Except.ok r ∧
      ((∀ nb ∈ env.batches, exceptOk nb.2 = false) → r.body = Body.noData) := by
  obtain ⟨av2, hav2⟩ := @filter_by_moon_ok env.cfg env.mo
    (fetch_all_providers env.batches).1 d1 d2 z hm
  have hb : build_message env = fmt_report env.cfg env.mo d1 d2 av2
      (summarize_windows env.cfg av2) (fetch_all_providers env.batches).2 := by
    rw [build_message_eq_ok hn, hav2]
  rw [hb, fmt_report_ok hm]
  refine ⟨_, rfl, ?_⟩
  intro hall
  have hz : (fetch_all_providers env.batches).1 = [] := fetch_averaged_nil_of_all_error hall
  have hav2nil : av2 = [] := by
    have h0 : filter_by_moon env.cfg env.mo (fetch_all_providers env.batches).1 d1 d2 =
        Except.ok ([] : List (Int × Consensus)) := by
      rw [hz]
      unfold filter_by_moon
      rw [if_pos (Or.inr rfl)]
    rw [h0] at hav2
    exact ((Except.ok.injEq .. ▸ hav2)).symm
  show (if av2 = [] then Body.noData
    else if summarize_windows env.cfg av2 = [] then Body.noWindows
    else Body.listing (_ : List (Int × Int × ℚ))) = Body.noData
  rw [if_pos hav2nil]

/-- Witness for C5 (amended) at a concrete environment: solar oracle
succeeds, the moon has no rise/set data, and the single provider raised. -/
theorem build_message_amended_witness :
    ∃ r, build_message ⟨Except.ok (0, 100000), ⟨0, 0, 7, none, none, none, none⟩,
        [("Open-Meteo", Except.error ())],
        ⟨35, 20, 1, 60, false, 40, 15, 0, false⟩⟩ = Except.ok r ∧
      ((∀ nb ∈ (⟨Except.ok (0, 100000), ⟨0, 0, 7, none, none, none, none⟩,
          [("Open-Meteo", Except.error ())],
          ⟨35, 20, 1, 60, false, 40, 15, 0, false⟩⟩ : Env).batches,
        exceptOk nb.2 = false) → r.body = Body.noData) :=
  build_message_amended _ 5400 94600 (max 0 (min 1 (0 : ℚ)) * 100, (7 : ℚ),
    ([] : List (TV × TV)), ([] : List (Int × Int)), MoonStatus.noData) rfl rfl

/-- C9: every Configuration-mutating handler (setnotify, setthresholds,
setclear, moonfilter) leaves the whole configuration unchanged and replies
with the usage message whenever any needed argument is missing or fails
numeric parsing, or (for setnotify) fails range validation; the handlers are
total, modelling the catch-all except that turns any such failure into the
usage reply instead of an exception. -/
theorem config_commands_reject_invalid (cfg : Config) (schedFails : Bool) :
    (∀ nargs : List (Except Unit Int),
      ((getArg nargs 0 = Except.error () ∨ getArg nargs 1 = Except.error ()) ∨
        (∀ h m, getArg nargs 0 = Except.ok h → getArg nargs 1 = Except.ok m →
          ¬(0 ≤ h ∧ h < 24 ∧ 0 ≤ m ∧ m < 60))) →
      setnotify cfg nargs schedFails = (cfg, Reply.usage)) ∧
    (∀ targs : List (Except Unit ℚ),
      (getArg targs 0 = Except.error () ∨ getArg targs 1 = Except.error ()) →
      setthresholds cfg targs = (cfg, Reply.usage)) ∧
    (∀ cargs : List (Except Unit ℚ),
      getArg cargs 0 = Except.error () →
      setclear cfg cargs = (cfg, Reply.usage)) ∧
    (∀ margs : List (Except Unit Int),
      getArg margs 0 = Except.error () →
      moonfilter cfg margs = (cfg, Reply.usage)) := by
  refine ⟨?_, ?_, ?_, ?_⟩
  · intro nargs hbad
    unfold setnotify
    cases h0 : getArg nargs 0 with
    | error e => cases e; rfl
    | ok h =>
        cases h1 : getArg nargs 1 with
        | error e => cases e; rfl
        | ok m =>
            rcases hbad with (hb | hb) | hb
            · rw [h0] at hb; exact absurd hb (by simp)
            · rw [h1] at hb; exact absurd hb (by simp)
            · exact if_neg (hb h m h0 h1)
  · intro targs hbad
    unfold setthresholds
    cases h0 : getArg targs 0 with
    | error e => cases e; rfl
    | ok c =>
        cases h1 : getArg targs 1 with
        | error e => cases e; rfl
        | ok p =>
            rcases hbad with hb | hb
            · rw [h0] at hb; exact absurd hb (by simp)
            · rw [h1] at hb; exact absurd hb (by simp)
  · intro cargs hbad
    unfold setclear
    rw [hbad]
  · intro margs hbad
    unfold moonfilter
    rw [hbad]

/-- Witness for C9: a setthresholds call with one valid and one invalid
argument, a setnotify call with an out-of-range hour, and setclear and
moonfilter calls with a missing argument all leave the configuration
untouched and produce the usage reply. -/
theorem config_commands_reject_invalid_witness :
    setnotify ⟨35, 20, 1, 60, false, 40, 15, 0, false⟩
        [Except.ok 99, Except.ok 0] false =
      (⟨35, 20, 1, 60, false, 40, 15, 0, false⟩, Reply.usage) ∧
    setthresholds ⟨35, 20, 1, 60, false, 40, 15, 0, false⟩
        [Except.ok 40, Except.error ()] =
      (⟨35, 20, 1, 60, false, 40, 15, 0, false⟩, Reply.usage) ∧
    setclear ⟨35, 20, 1, 60, false, 40, 15, 0, false⟩ [] =
      (⟨35, 20, 1, 60, false, 40, 15, 0, false⟩, Reply.usage) ∧
    moonfilter ⟨35, 20, 1, 60, false, 40, 15, 0, false⟩ [Except.error ()] =
      (⟨35, 20, 1, 60, false, 40, 15, 0, false⟩, Reply.usage) := by
  have h := config_commands_reject_invalid ⟨35, 20, 1, 60, false, 40, 15, 0, false⟩ false
  refine ⟨h.1 [Except.ok 99, Except.ok 0] (Or.inr ?_), h.2.1 [Except.ok 40, Except.error ()]
    (Or.inr rfl), h.2.2.1 [] rfl, h.2.2.2 [Except.error ()] rfl⟩
  intro a b ha hb
  have ha2 : a = 99 := by
    have := Except.ok.injEq .. ▸ ha.symm
    omega
  omega

/-- C10: the provider adapter keeps exactly the samples with
round_hour(start) ≤ ts ≤ round_hour(end) (both bounds inclusive), so the
consensus mapping may contain the hour at dawn itself; in a concrete run
with dusk 0 and hour-aligned dawn 7200 that dawn hour is fetched, fused and
lies inside the extracted window [0, 10800) (summarize_windows imposes no
upper timestamp bound), while the hour list of compute_clear_fraction
requires ts < dawn and therefore never contains the dawn timestamp. -/
theorem provider_bound_and_dawn_hour :
    (∀ (raw : List (Int × Option ℚ × Option ℚ)) (start stop : Int),
      (∀ p ∈ openMeteo_fetch_hours raw start stop,
        round_hour start ≤ p.ts ∧ p.ts ≤ round_hour stop) ∧
      (∀ rrow ∈ raw, round_hour start ≤ rrow.1 → rrow.1 ≤ round_hour stop →
        (⟨rrow.1, rrow.2.1, some (rrow.2.2.getD 0)⟩ : HourPoint) ∈
          openMeteo_fetch_hours raw start stop)) ∧
    (∀ (averaged : List (Int × Consensus)) (dusk dawn : Int),
      ∀ ts ∈ clearHrs averaged dusk dawn, dusk ≤ ts ∧ ts < dawn) ∧
    (∀ (averaged : List (Int × Consensus)) (dusk dawn : Int),
      dawn ∉ clearHrs averaged dusk dawn) ∧
    ((fetch_all_providers [("Open-Meteo", Except.ok (openMeteo_fetch_hours
        [(0, some 10, some 0), (3600, some 10, some 0), (7200, some 10, some 0)] 0 7200))]).1 =
        [(0, ⟨10, 0⟩), (3600, ⟨10, 0⟩), (7200, ⟨10, 0⟩)] ∧
     (7200, (⟨10, 0⟩ : Consensus)) ∈
      (fetch_all_providers [("Open-Meteo", Except.ok (openMeteo_fetch_hours
        [(0, some 10, some 0), (3600, some 10, some 0), (7200, some 10, some 0)] 0 7200))]).1 ∧
     summarize_windows ⟨35, 20, 1, 60, false, 40, 15, 0, false⟩
        [(0, ⟨10, 0⟩), (3600, ⟨10, 0⟩), (7200, ⟨10, 0⟩)] = [(0, 10800)] ∧
     ((0 : Int) ≤ 7200 ∧ (7200 : Int) < 10800) ∧
     clearHrs [(0, ⟨10, 0⟩), (3600, ⟨10, 0⟩), (7200, ⟨10, 0⟩)] 0 7200 = [0, 3600]) := by
  have hc : fuseCell ⟨[10], [0]⟩ = (⟨10, 0⟩ : Consensus) := by
    simp [fuseCell, avgOr]
  have hfetch : (fetch_all_providers [("Open-Meteo", Except.ok (openMeteo_fetch_hours
      [(0, some 10, some 0), (3600, some 10, some 0), (7200, some 10, some 0)] 0 7200))]).1 =
      [(0, ⟨10, 0⟩), (3600, ⟨10, 0⟩), (7200, ⟨10, 0⟩)] := by
    have h0 : (fetch_all_providers [("Open-Meteo", Except.ok (openMeteo_fetch_hours
        [(0, some 10, some 0), (3600, some 10, some 0), (7200, some 10, some 0)] 0 7200))]).1 =
        [(0, fuseCell ⟨[10], [0]⟩), (3600, fuseCell ⟨[10], [0]⟩),
          (7200, fuseCell ⟨[10], [0]⟩)] := rfl
    rw [h0, hc]
  refine ⟨?_, ?_, ?_, hfetch,
    (by rw [hfetch]
        exact List.mem_cons_of_mem _ (List.mem_cons_of_mem _ (List.mem_cons_self _ _))),
    (by norm_num [summarize_windows, allowedTs, List.filter_cons, rawWindows, mergeLoop,
          List.insertionSort, List.orderedInsert, List.cons_ne_nil]),
    by decide, by decide⟩
  · intro raw start stop
    constructor
    · intro p hp
      obtain ⟨rrow, hrow, hf⟩ := List.mem_map.mp hp
      obtain ⟨_, hpred⟩ := List.mem_filter.mp hrow
      have hb : round_hour start ≤ rrow.1 ∧ rrow.1 ≤ round_hour stop := by simpa using hpred
      have hts : p.ts = rrow.1 := by rw [← hf]
      rw [hts]
      exact hb
    · intro rrow hrow h1 h2
      exact List.mem_map.mpr ⟨rrow, List.mem_filter.mpr ⟨hrow, by simpa using ⟨h1, h2⟩⟩, rfl⟩
  · intro averaged dusk dawn ts hts
    have := (List.mem_filter.mp hts).2
    simpa using this
  · intro averaged dusk dawn hmem
    have := (List.mem_filter.mp hmem).2
    simp at this

/-- Witness for C10: the general bound statements applied at the concrete
three-row fetch with dusk 0 and dawn 7200. -/
theorem provider_bound_and_dawn_hour_witness :
    (∀ p ∈ openMeteo_fetch_hours
        [(0, some 10, some 0), (3600, some 10, some 0), (7200, some 10, some 0)] 0 7200,
      round_hour 0 ≤ p.ts ∧ p.ts ≤ round_hour 7200) ∧
    ((7200 : Int) ∉ clearHrs (fetch_all_providers [("Open-Meteo",
      Except.ok (openMeteo_fetch_hours
        [(0, some 10, some 0), (3600, some 10, some 0), (7200, some 10, some 0)] 0 7200))]).1
      0 7200) :=
  ⟨fun p hp => ((provider_bound_and_dawn_hour.1
      [(0, some 10, some 0), (3600, some 10, some 0), (7200, some 10, some 0)] 0 7200).1 p hp),
   provider_bound_and_dawn_hour.2.2.1 _ 0 7200⟩

/-! Lemmas for the unfiltered-bullet claim. -/

theorem exists_point_of_samples_ne {pts : List HourPoint} {t : Int}
    (h : cloudSamples pts t ≠ [] ∨ precipSamples pts t ≠ []) :
    ∃ p ∈ pts, p.ts = t := by
  rcases h with h | h
  · obtain ⟨q, hq⟩ := List.exists_mem_of_ne_nil _ h
    obtain ⟨p, hp, _⟩ := List.mem_filterMap.mp hq
    obtain ⟨hpa, hpts⟩ := List.mem_filter.mp hp
    exact ⟨p, hpa, by simpa using hpts⟩
  · obtain ⟨q, hq⟩ := List.exists_mem_of_ne_nil _ h
    obtain ⟨p, hp, _⟩ := List.mem_filterMap.mp hq
    obtain ⟨hpa, hpts⟩ := List.mem_filter.mp hp
    exact ⟨p, hpa, by simpa using hpts⟩

theorem fetch_keys_aligned {bs : List (String × Except Unit (List HourPoint))}
    (halign : ∀ p ∈ allPoints bs, (3600 : Int) ∣ p.ts) :
    ∀ ts ∈ (fetch_all_providers bs).1.map Prod.fst, (3600 : Int) ∣ ts := by
  intro ts hts
  obtain ⟨⟨t, r⟩, hmem, hf⟩ := List.mem_map.mp hts
  have hc := ((mem_fetch_averaged bs t r).mp hmem).1
  obtain ⟨p, hp, hpts⟩ := exists_point_of_samples_ne hc
  have : (3600 : Int) ∣ t := hpts ▸ halign p hp
  exact hf ▸ this

theorem fetch_keys_nodup (bs : List (String × Except Unit (List HourPoint))) :
    ((fetch_all_providers bs).1.map Prod.fst).Nodup :=
  (fetch_averaged_sorted bs).imp ne_of_lt

theorem filter_by_moon_sub {cfg : Config} {mo : MoonOracle}
    {averaged av2 : List (Int × Consensus)} {d1 d2 : Int}
    (h : filter_by_moon cfg mo averaged d1 d2 = Except.ok av2) :
    ∃ q : Int × Consensus → Bool, av2 = averaged.filter q := by
  unfold filter_by_moon at h
  by_cases h1 : ¬cfg.useMoonFilter ∨ averaged = []
  · rw [if_pos h1] at h
    refine ⟨fun _ => true, ?_⟩
    have h2 : averaged = av2 := Except.ok.injEq .. ▸ h
    rw [← h2, List.filter_true]
  · rw [if_neg h1] at h
    cases hm : classify_moon_vs_night mo d1 d2 with
    | error e =>
        rw [hm] at h
        exact absurd h (by simp)
    | ok z =>
        rw [hm] at h
        obtain ⟨illum, age, ints, ovl, st⟩ := z
        have h' : (if illum ≤ cfg.moonMaxIllum ∨ ovl = [] then Except.ok averaged
            else Except.ok (averaged.filter fun tv =>
              !(ovl.any fun ab => decide (ab.1 ≤ tv.1 ∧ tv.1 < ab.2)))) = Except.ok av2 := h
        by_cases h2 : illum ≤ cfg.moonMaxIllum ∨ ovl = []
        · rw [if_pos h2] at h'
          refine ⟨fun _ => true, ?_⟩
          have h3 : averaged = av2 := Except.ok.injEq .. ▸ h'
          rw [← h3, List.filter_true]
        · rw [if_neg h2] at h'
          refine ⟨fun tv => !(ovl.any fun ab => decide (ab.1 ≤ tv.1 ∧ tv.1 < ab.2)), ?_⟩
          exact (Except.ok.injEq .. ▸ h').symm

theorem summarize_mem_raw {cfg : Config} {averaged : List (Int × Consensus)}
    {w : Int × Int} (hw : w ∈ summarize_windows cfg averaged) :
    w ∈ rawWindows (List.insertionSort (· ≤ ·) (allowedTs cfg averaged)) := by
  unfold summarize_windows at hw
  by_cases h : allowedTs cfg averaged = []
  · rw [if_pos h] at hw
    simp at hw
  · rw [if_neg h] at hw
    exact (List.mem_filter.mp hw).1

theorem summarize_window_covers {cfg : Config} {averaged : List (Int × Consensus)}
    {w : Int × Int} (hal : ∀ ts ∈ averaged.map Prod.fst, (3600 : Int) ∣ ts)
    (hw : w ∈ summarize_windows cfg averaged) :
    (3600 : Int) ∣ w.1 ∧ (3600 : Int) ∣ w.2 ∧ w.1 + 3600 ≤ w.2 ∧
    ∀ t, w.1 ≤ t → t < w.2 → (3600 : Int) ∣ t → t ∈ allowedTs cfg averaged := by
  have hraw := summarize_mem_raw hw
  have halL : ∀ x ∈ List.insertionSort (· ≤ ·) (allowedTs cfg averaged), (3600 : Int) ∣ x :=
    fun x hx => hal x (allowedTs_subset_keys ((List.perm_insertionSort _ _).mem_iff.mp hx))
  obtain ⟨hd1, hd2, hlen⟩ := rawWindows_bounds halL w hraw
  refine ⟨hd1, hd2, hlen, ?_⟩
  intro t ht1 ht2 htd
  have htg : t ∈ gridPts w.1 w.2 :=
    mem_gridPts ht1 ht2 (dvd_sub htd hd1) (dvd_sub hd2 hd1)
  have hmem : t ∈ (rawWindows (List.insertionSort (· ≤ ·)
      (allowedTs cfg averaged))).flatMap (fun ab => gridPts ab.1 ab.2) :=
    List.mem_flatMap.mpr ⟨w, hraw, htg⟩
  rw [rawWindows_flatMap] at hmem
  exact (List.perm_insertionSort _ _).mem_iff.mp hmem

theorem bullet_eq {cfg : Config} {av av2 : List (Int × Consensus)}
    {q : Int × Consensus → Bool} (hav2 : av2 = av.filter q)
    (hnd : (av.map Prod.fst).Nodup)
    (hal : ∀ ts ∈ av.map Prod.fst, (3600 : Int) ∣ ts)
    {a b : Int} (hw : (a, b) ∈ summarize_windows cfg av2) :
    av2.filter (fun tv => decide (a ≤ tv.1 ∧ tv.1 < b)) =
      av.filter (fun tv => decide (a ≤ tv.1 ∧ tv.1 < b)) := by
  have hal2 : ∀ ts ∈ av2.map Prod.fst, (3600 : Int) ∣ ts := by
    intro ts hts
    apply hal
    rw [hav2] at hts
    exact ((List.filter_sublist _).map Prod.fst).subset hts
  obtain ⟨hd1, hd2, hlen, hcov⟩ := summarize_window_covers hal2 hw
  rw [hav2, List.filter_filter]
  apply List.filter_congr
  intro x hx
  by_cases hin : a ≤ x.1 ∧ x.1 < b
  · have hx1 : (3600 : Int) ∣ x.1 := hal x.1 (List.mem_map_of_mem Prod.fst hx)
    have hxan : x.1 ∈ allowedTs cfg av2 := hcov x.1 hin.1 hin.2 hx1
    have hxk : x.1 ∈ (av.filter q).map Prod.fst := by
      have h2 := allowedTs_subset_keys hxan
      rw [hav2] at h2
      exact h2
    obtain ⟨y, hy, hyf⟩ := List.mem_map.mp hxk
    have hyav : y ∈ av := (List.mem_filter.mp hy).1
    have hxy : y = x := eq_of_fst_eq_of_nodup hnd hyav hx hyf
    have hqx : q x = true := hxy ▸ (List.mem_filter.mp hy).2
    simp [hqx, hin]
  · simp [hin]

theorem bulletAvg_unfiltered {cfg : Config} {av av2 : List (Int × Consensus)}
    {q : Int × Consensus → Bool} (hav2 : av2 = av.filter q)
    (hnd : (av.map Prod.fst).Nodup)
    (hal : ∀ ts ∈ av.map Prod.fst, (3600 : Int) ∣ ts)
    {a b : Int} (hw : (a, b) ∈ summarize_windows cfg av2) :
    ((av.filter fun tv => decide (a ≤ tv.1 ∧ tv.1 < b)).map fun tv => tv.2.cloud) ≠ [] ∧
    bulletAvg av2 a b =
      ((av.filter fun tv => decide (a ≤ tv.1 ∧ tv.1 < b)).map fun tv => tv.2.cloud).sum /
      ((((av.filter fun tv => decide (a ≤ tv.1 ∧ tv.1 < b)).map
        fun tv => tv.2.cloud).length : ℚ)) := by
  have hfe := bullet_eq hav2 hnd hal hw
  have hal2 : ∀ ts ∈ av2.map Prod.fst, (3600 : Int) ∣ ts := by
    intro ts hts
    apply hal
    rw [hav2] at hts
    exact ((List.filter_sublist _).map Prod.fst).subset hts
  obtain ⟨hd1, hd2, hlen, hcov⟩ := summarize_window_covers hal2 hw
  have haan : a ∈ allowedTs cfg av2 := hcov a le_rfl (by omega) hd1
  obtain ⟨ra, hra, _, _⟩ := mem_allowedTs_exists haan
  have hrav : (a, ra) ∈ av.filter (fun tv => decide (a ≤ tv.1 ∧ tv.1 < b)) := by
    rw [← hfe]
    refine List.mem_filter.mpr ⟨hra, ?_⟩
    have : a ≤ a ∧ a < b := ⟨le_rfl, by omega⟩
    simpa using this
  have hne : ((av.filter fun tv => decide (a ≤ tv.1 ∧ tv.1 < b)).map
      fun tv => tv.2.cloud) ≠ [] := by
    intro hnil
    have hmem := List.mem_map_of_mem (fun tv : Int × Consensus => tv.2.cloud) hrav
    rw [hnil] at hmem
    simp at hmem
  refine ⟨hne, ?_⟩
  have hperm : List.Perm
      (((List.insertionSort keyLE av2).filter
        (fun tv => decide (a ≤ tv.1 ∧ tv.1 < b))).map (fun tv => tv.2.cloud))
      ((av.filter fun tv => decide (a ≤ tv.1 ∧ tv.1 < b)).map fun tv => tv.2.cloud) := by
    have h1 := (List.perm_insertionSort keyLE av2).filter
      (fun tv => decide (a ≤ tv.1 ∧ tv.1 < b))
    rw [hfe] at h1
    exact h1.map _
  have hne2 : ((List.insertionSort keyLE av2).filter
      (fun tv => decide (a ≤ tv.1 ∧ tv.1 < b))).map (fun tv => tv.2.cloud) ≠ [] := by
    intro hnil
    rw [hnil] at hperm
    exact hne hperm.nil_eq.symm
  unfold bulletAvg
  rw [if_neg hne2, hperm.sum_eq, hperm.length_eq]

/-- C8: in every produced report whose window list is non-empty, each
window's bullet shows the mean cloud cover over the unfiltered consensus
hours (the fetch_all_providers mapping before filter_by_moon) falling inside
that half-open window.  Provider timestamps are hour-aligned per the adapter
contract. -/
theorem fmt_report_bullet_unfiltered_mean (env : Env) (r : Report)
    (bl : List (Int × Int × ℚ))
    (halign : ∀ p ∈ allPoints env.batches, (3600 : Int) ∣ p.ts)
    (hok : build_message env = Except.ok r)
    (hbody : r.body = Body.listing bl) :
    ∀ x ∈ bl,
      (((fetch_all_providers env.batches).1.filter fun tv =>
        decide (x.1 ≤ tv.1 ∧ tv.1 < x.2.1)).map fun tv => tv.2.cloud) ≠ [] ∧
      x.2.2 = (((fetch_all_providers env.batches).1.filter fun tv =>
        decide (x.1 ≤ tv.1 ∧ tv.1 < x.2.1)).map fun tv => tv.2.cloud).sum /
        (((((fetch_all_providers env.batches).1.filter fun tv =>
          decide (x.1 ≤ tv.1 ∧ tv.1 < x.2.1)).map fun tv => tv.2.cloud).length : ℚ)) := by
  cases hn : night_window env.solar with
  | error e =>
      have hbad : (Except.error e : Except Unit Report) = Except.ok r := by
        rw [← hok]
        unfold build_message
        rw [hn]
      simp at hbad
  | ok dd =>
      obtain ⟨d1, d2⟩ := dd
      rw [build_message_eq_ok hn] at hok
      cases hf : filter_by_moon env.cfg env.mo (fetch_all_providers env.batches).1 d1 d2 with
      | error e =>
          rw [hf] at hok
          exact absurd hok (by simp)
      | ok av2 =>
          rw [hf] at hok
          have hok2 : fmt_report env.cfg env.mo d1 d2 av2 (summarize_windows env.cfg av2)
              (fetch_all_providers env.batches).2 = Except.ok r := hok
          cases hcl : classify_moon_vs_night env.mo d1 d2 with
          | error e =>
              have hbad : (Except.error e : Except Unit Report) = Except.ok r := by
                rw [← hok2]
                unfold fmt_report
                rw [hcl]
              simp at hbad
          | ok z =>
              rw [fmt_report_ok hcl] at hok2
              have hr : r = ⟨make_summary_line env.cfg (compute_clear_fraction env.cfg av2 d1 d2)
                  (summarize_windows env.cfg av2), z.1, z.2.2.2.2,
                  (if av2 = [] then Body.noData
                   else if summarize_windows env.cfg av2 = [] then Body.noWindows
                   else Body.listing ((summarize_windows env.cfg av2).map
                     fun ab => (ab.1, ab.2, bulletAvg av2 ab.1 ab.2))),
                  (if env.cfg.showSources then
                    some ((fetch_all_providers env.batches).2.filter fun nv => decide (0 < nv.2))
                   else none)⟩ := (Except.ok.injEq .. ▸ hok2).symm

              rw [hr] at hbody
              by_cases hA : av2 = []
              · rw [if_pos hA] at hbody
                simp at hbody
              · rw [if_neg hA] at hbody
                by_cases hW : summarize_windows env.cfg av2 = []
                · rw [if_pos hW] at hbody
                  simp at hbody
                · rw [if_neg hW] at hbody
                  have hbl : bl = (summarize_windows env.cfg av2).map
                      fun ab => (ab.1, ab.2, bulletAvg av2 ab.1 ab.2) :=
                    (Body.listing.injEq .. ▸ hbody).symm
                  intro x hx
                  rw [hbl] at hx
                  obtain ⟨ab, hab, hxe⟩ := List.mem_map.mp hx
                  obtain ⟨qf, hq⟩ := filter_by_moon_sub hf
                  have hres := @bulletAvg_unfiltered env.cfg
                    (fetch_all_providers env.batches).1 av2 qf hq
                    (fetch_keys_nodup env.batches) (fetch_keys_aligned halign)
                    ab.1 ab.2 (by simpa using hab)
                  rw [← hxe]
                  exact hres

theorem buildC8_fetch : (fetch_all_providers envC8.batches).1 = avC8 := by
  have h0 : (fetch_all_providers envC8.batches).1 =
      [(7200, fuseCell ⟨[10], [5]⟩), (10800, fuseCell ⟨[10], [5]⟩)] := rfl
  have h1 : fuseCell ⟨[10], [5]⟩ = (⟨10, 5⟩ : Consensus) := by
    simp [fuseCell, avgOr]
  rw [h0, h1]
  rfl

theorem buildC8_sum : summarize_windows envC8.cfg avC8 = [(7200, 14400)] := by
  show summarize_windows cfgC8 avC8 = [(7200, 14400)]
  norm_num [summarize_windows, allowedTs, List.filter_cons, rawWindows, mergeLoop,
    List.insertionSort, List.orderedInsert, List.cons_ne_nil, cfgC8, avC8]

theorem buildC8_ok : build_message envC8 = Except.ok rC8 := by
  have hn : night_window envC8.solar = Except.ok (5400, 94600) := rfl
  have hfilter : filter_by_moon envC8.cfg envC8.mo avC8 5400 94600 = Except.ok avC8 := rfl
  have hcl : classify_moon_vs_night envC8.mo 5400 94600 =
      Except.ok (max 0 (min 1 0) * 100, 7, ([] : List (TV × TV)), ([] : List (Int × Int)),
        MoonStatus.noData) := rfl
  rw [build_message_eq_ok hn, buildC8_fetch, hfilter]
  show fmt_report envC8.cfg envC8.mo 5400 94600 avC8 (summarize_windows envC8.cfg avC8)
      (fetch_all_providers envC8.batches).2 = Except.ok rC8
  rw [buildC8_sum, fmt_report_ok hcl]
  rfl

/-- Witness for C8 at the concrete environment envC8: the single window's
bullet value equals the mean cloud of the unfiltered consensus hours inside
the window. -/
theorem fmt_report_bullet_unfiltered_mean_witness :
    (((fetch_all_providers envC8.batches).1.filter fun tv =>
      decide ((7200 : Int) ≤ tv.1 ∧ tv.1 < (14400 : Int))).map fun tv => tv.2.cloud) ≠ [] ∧
    bulletAvg avC8 7200 14400 = (((fetch_all_providers envC8.batches).1.filter fun tv =>
      decide ((7200 : Int) ≤ tv.1 ∧ tv.1 < (14400 : Int))).map fun tv => tv.2.cloud).sum /
      (((((fetch_all_providers envC8.batches).1.filter fun tv =>
        decide ((7200 : Int) ≤ tv.1 ∧ tv.1 < (14400 : Int))).map
          fun tv => tv.2.cloud).length : ℚ)) :=
  fmt_report_bullet_unfiltered_mean envC8 rC8
    [((7200 : Int), (14400 : Int), bulletAvg avC8 7200 14400)]
    (by decide) buildC8_ok rfl
    ((7200 : Int), (14400 : Int), bulletAvg avC8 7200 14400) (List.mem_singleton.mpr rfl)

end Yasnoch
